import Mathlib

set_option maxHeartbeats 1000000

/-!
Verification development for the SillyTavern memory subsystem of the
`openclaw` repository: the entry/book data model, the canonical JSON store
(`src/memory/store.ts`), the per-book SQLite vector+keyword index
(`src/memory/memory-index.ts`), cosine similarity
(`src/memory/embedding-manager.ts`), the vector-store orchestration and the
LLM auto-extractor.  TypeScript numbers that carry integral data (counters,
importance scores) are modelled as `Nat`/`Int`, similarity scores as real or
rational numbers, timestamps and identifiers as strings.  Nondeterministic
inputs (generated ids, the current time, network search results) are passed
as explicit parameters.
-/

/-- Entry provenance: `manual` (user-added) or `auto` (extracted). -/
inductive EntryType where
  | manual
  | auto
deriving Repr, DecidableEq

/-- Sort orders for memory injection (`MemoryBookSettings.sortBy`). -/
inductive SortBy where
  | importance
  | recency
  | accessCount
deriving Repr, DecidableEq

/-- `MemoryEntry` from `src/memory/types.ts`.  Timestamps are ISO-8601
strings exactly as stored in the JSON documents.  `importance` is documented
in the source as an optional score in 0–100. -/
structure MemoryEntry where
  id : String
  content : String
  createdAt : String
  lastAccessedAt : String
  accessCount : Nat
  type : EntryType
  keywords : Option (List String)
  importance : Option Int
  category : Option String
  source : Option String
  enabled : Bool
deriving Repr, DecidableEq

/-- `MemoryBookSettings` from `src/memory/types.ts`. -/
structure MemoryBookSettings where
  maxMemoriesPerRequest : Nat
  maxMemoryTokens : Nat
  useKeywordRetrieval : Bool
  autoExtract : Bool
  minImportanceForInjection : Int
  sortBy : SortBy
deriving Repr, DecidableEq

/-- `MemoryBook` from `src/memory/types.ts`. -/
structure MemoryBook where
  id : String
  name : String
  characterId : Option String
  sessionKey : Option String
  createdAt : String
  updatedAt : String
  entries : List MemoryEntry
  settings : MemoryBookSettings
deriving Repr, DecidableEq

/-- `DEFAULT_BOOK_SETTINGS` from `src/memory/store.ts` (lines 62–69). -/
def DEFAULT_BOOK_SETTINGS : MemoryBookSettings :=
  { maxMemoriesPerRequest := 10
  , maxMemoryTokens := 1000
  , useKeywordRetrieval := true
  , autoExtract := false
  , minImportanceForInjection := 50
  , sortBy := .importance }

/-! ## Embedding serialization (`src/memory/memory-index.ts`, lines 59–76)

A stored float is the 32-bit IEEE-754 pattern that `Buffer.writeFloatLE`
lays out in memory; `writeFloatLE`/`readFloatLE` translate losslessly
between a float32 value and these 32 bits, so a float32 value is modelled
by its bit pattern (a natural number below `2^32`).  What the repository's
own code contributes — and what is modelled here — is the 4-byte
little-endian packing at offset `4*i` per component. -/

/-- The four little-endian bytes of one 32-bit word, as written by
`buffer.writeFloatLE(embedding[i], i * 4)`. -/
def word32Bytes (w : Nat) : List Nat :=
  [w % 256, w / 256 % 256, w / 65536 % 256, w / 16777216 % 256]

/-- `serializeEmbedding`: allocates `4 * length` bytes and writes each
component as a 4-byte little-endian value at offset `4*i`. -/
def serializeEmbedding (embedding : List Nat) : List Nat :=
  (embedding.map word32Bytes).flatten

/-- `deserializeEmbedding`: walks the buffer in steps of 4 bytes and reads
each group back with `readFloatLE` (little-endian). -/
def deserializeEmbedding : List Nat → List Nat
  | b0 :: b1 :: b2 :: b3 :: rest =>
      (b0 + 256 * b1 + 65536 * b2 + 16777216 * b3) :: deserializeEmbedding rest
  | _ => []

/-! ## Canonical storage (`src/memory/store.ts`)

Canonical storage is one JSON file per book in a single directory, the file
name being the book id.  It is modelled as a list of books in directory
order; the file name/id correspondence means the book id is the lookup key.
Book/entry id generation (`Date.now()` plus `Math.random()`) is
nondeterministic and is modelled by explicit `freshId` parameters; the
current time `new Date().toISOString()` by an explicit `now` parameter. -/

/-- The on-disk storage directory, as a list of parsed book documents. -/
abbrev MemoryStore := List MemoryBook

/-- `loadMemoryBook`: reads `<bookId>.json` if it exists. -/
def loadMemoryBook (st : MemoryStore) (bookId : String) : Option MemoryBook :=
  st.find? (fun b => b.id == bookId)

/-- `loadMemoryBookByCharacter`: linear scan over all book documents. -/
def loadMemoryBookByCharacter (st : MemoryStore) (characterId : String) :
    Option MemoryBook :=
  st.find? (fun b => b.characterId == some characterId)

/-- `loadMemoryBookBySession`: linear scan over all book documents. -/
def loadMemoryBookBySession (st : MemoryStore) (sessionKey : String) :
    Option MemoryBook :=
  st.find? (fun b => b.sessionKey == some sessionKey)

/-- `saveMemoryBook`: stamps `updatedAt` and writes `<book.id>.json`,
overwriting any existing file of that name. -/
def saveMemoryBook (st : MemoryStore) (book : MemoryBook) (now : String) :
    MemoryStore :=
  let stored := { book with updatedAt := now }
  if st.any (fun b => b.id == book.id) then
    st.map (fun b => if b.id == book.id then stored else b)
  else
    st ++ [stored]

/-- `createMemoryBook` (settings overrides are not exercised by
`getOrCreateMemoryBook`, which is the only caller modelled here, so the
settings parameter is omitted and the defaults are used). -/
def createMemoryBook (st : MemoryStore) (name : String)
    (characterId sessionKey : Option String) (now freshId : String) :
    MemoryBook × MemoryStore :=
  let book : MemoryBook :=
    { id := freshId
    , name := name
    , characterId := characterId
    , sessionKey := sessionKey
    , createdAt := now
    , updatedAt := now
    , entries := []
    , settings := DEFAULT_BOOK_SETTINGS }
  ({ book with updatedAt := now }, saveMemoryBook st book now)

/-- Parameters of `getOrCreateMemoryBook`. -/
structure GetOrCreateParams where
  characterId : Option String
  characterName : Option String
  sessionKey : Option String
deriving Repr, DecidableEq

/-- The guarded `characterId` lookup of `getOrCreateMemoryBook`: the JS
guard `if (params.characterId)` is a truthiness test, so an empty string
behaves like an absent field. -/
def lookupByCharacterParam (st : MemoryStore) (characterId : Option String) :
    Option MemoryBook :=
  match characterId with
  | some cid => if cid = "" then none else loadMemoryBookByCharacter st cid
  | none => none

/-- The guarded `sessionKey` lookup of `getOrCreateMemoryBook`. -/
def lookupBySessionParam (st : MemoryStore) (sessionKey : Option String) :
    Option MemoryBook :=
  match sessionKey with
  | some sk => if sk = "" then none else loadMemoryBookBySession st sk
  | none => none

/-- `getOrCreateMemoryBook` (`src/memory/store.ts`, lines 613–640): look up
by `characterId`, then by `sessionKey`, else create a book named from
`characterName ?? sessionKey ?? "Default"`. -/
def getOrCreateMemoryBook (st : MemoryStore) (params : GetOrCreateParams)
    (now freshId : String) : MemoryBook × MemoryStore :=
  match lookupByCharacterParam st params.characterId with
  | some existing => (existing, st)
  | none =>
    match lookupBySessionParam st params.sessionKey with
    | some existing => (existing, st)
    | none =>
      let name := params.characterName.getD (params.sessionKey.getD "Default")
      createMemoryBook st name params.characterId params.sessionKey now freshId

/-- Parameters of `addMemory`. -/
structure AddMemoryParams where
  content : String
  type : Option EntryType
  keywords : Option (List String)
  importance : Option Int
  category : Option String
  source : Option String
deriving Repr, DecidableEq

/-- `addMemory` (`src/memory/store.ts`, lines 199–234): appends a new entry
to the book and saves it.  The caller's `importance` is stored as
`params.importance ?? 50`, without any further processing. -/
def addMemory (st : MemoryStore) (bookId : String) (params : AddMemoryParams)
    (now freshId : String) : Option MemoryEntry × MemoryStore :=
  match loadMemoryBook st bookId with
  | none => (none, st)
  | some book =>
    let entry : MemoryEntry :=
      { id := freshId
      , content := params.content
      , createdAt := now
      , lastAccessedAt := now
      , accessCount := 0
      , type := params.type.getD .manual
      , keywords := params.keywords
      , importance := some (params.importance.getD 50)
      , category := params.category
      , source := params.source
      , enabled := true }
    (some entry, saveMemoryBook st { book with entries := book.entries ++ [entry] } now)

/-- `Partial<Omit<MemoryEntry, "id" | "createdAt">>`: the update record of
`updateMemory`; an absent field leaves the entry's field unchanged. -/
structure MemoryEntryUpdates where
  content : Option String
  lastAccessedAt : Option String
  accessCount : Option Nat
  type : Option EntryType
  keywords : Option (List String)
  importance : Option Int
  category : Option String
  source : Option String
  enabled : Option Bool
deriving Repr, DecidableEq

/-- Object-spread `{ ...entry, ...updates }`. -/
def applyEntryUpdates (e : MemoryEntry) (u : MemoryEntryUpdates) : MemoryEntry :=
  { e with
    content := u.content.getD e.content
    lastAccessedAt := u.lastAccessedAt.getD e.lastAccessedAt
    accessCount := u.accessCount.getD e.accessCount
    type := u.type.getD e.type
    keywords := match u.keywords with | some ks => some ks | none => e.keywords
    importance := match u.importance with | some i => some i | none => e.importance
    category := match u.category with | some c => some c | none => e.category
    source := match u.source with | some s => some s | none => e.source
    enabled := u.enabled.getD e.enabled }

/-- Replace the first entry with the given id. -/
def replaceFirstEntry (entries : List MemoryEntry) (memoryId : String)
    (e' : MemoryEntry) : List MemoryEntry :=
  match entries with
  | [] => []
  | e :: es =>
    if e.id == memoryId then e' :: es
    else e :: replaceFirstEntry es memoryId e'

/-- `updateMemory` (`src/memory/store.ts`, lines 239–261): spreads the
updates over the entry at the first matching index and saves; the field
values are stored verbatim. -/
def updateMemory (st : MemoryStore) (bookId memoryId : String)
    (updates : MemoryEntryUpdates) (now : String) :
    Option MemoryEntry × MemoryStore :=
  match loadMemoryBook st bookId with
  | none => (none, st)
  | some book =>
    match book.entries.find? (fun e => e.id == memoryId) with
    | none => (none, st)
    | some e =>
      let e' := applyEntryUpdates e updates
      let book' := { book with entries := replaceFirstEntry book.entries memoryId e' }
      (some e', saveMemoryBook st book' now)

/-! ## String helpers

The JavaScript string primitives used by the memory engine
(`toLowerCase`, `split(/\s+/)`, `includes`, SQLite `LIKE '%...%'`) are
modelled as structural functions over the underlying character lists so
that concrete instances reduce inside the kernel.  `toLowerCase` is
modelled with `Char.toLower` (ASCII case folding; the engines agree on all
characters that survive the ASCII/CJK keyword filters used here). -/

/-- `s.toLowerCase()`. -/
def lowerStr (s : String) : String :=
  String.mk (s.data.map Char.toLower)

/-- Is `pat` a prefix of `hay`? -/
def charsPrefix : List Char → List Char → Bool
  | [], _ => true
  | _ :: _, [] => false
  | p :: ps, h :: hs => p == h && charsPrefix ps hs

/-- Does `hay` contain `pat` as a contiguous substring? -/
def charsContain (pat : List Char) : List Char → Bool
  | [] => charsPrefix pat []
  | c :: cs => charsPrefix pat (c :: cs) || charsContain pat cs

/-- `hay.includes(pat)` (also SQLite `hay LIKE '%pat%'` after case folding). -/
def strContains (hay pat : String) : Bool :=
  charsContain pat.data hay.data

/-- Split a character list at every character satisfying `p`.  JavaScript's
`split(/\s+/)` splits at whitespace runs instead, producing no interior
empty pieces; every use below filters out pieces of length ≤ 2, which
erases that difference. -/
def splitChars (p : Char → Bool) : List Char → List (List Char)
  | [] => [[]]
  | c :: cs =>
    let r := splitChars p cs
    if p c then [] :: r
    else
      match r with
      | [] => [[c]]
      | w :: ws => (c :: w) :: ws

/-- `query.toLowerCase().split(/\s+/).filter((w) => w.length > 2)` — the
tokenizer shared by `searchKeyword` (memory-index.ts, lines 339–342). -/
def splitTokens (query : String) : List String :=
  ((splitChars Char.isWhitespace (lowerStr query).data).map String.mk).filter
    (fun w => 2 < w.length)

/-- First-occurrence deduplication, i.e. `[...new Set(words)]`. -/
def dedupFirstAux (seen : List String) : List String → List String
  | [] => []
  | w :: ws =>
    if seen.contains w then dedupFirstAux seen ws
    else w :: dedupFirstAux (w :: seen) ws

/-- `[...new Set(words)]`. -/
def dedupFirst (words : List String) : List String :=
  dedupFirstAux [] words

/-- The stop-word set of `extractKeywords` (`src/memory/store.ts`,
lines 389–498). -/
def stopWords : List String :=
  ["the", "a", "an", "is", "are", "was", "were", "be", "been", "being",
   "have", "has", "had", "do", "does", "did", "will", "would", "could",
   "should", "may", "might", "must", "can", "and", "or", "but", "if",
   "then", "else", "when", "where", "why", "how", "what", "which", "who",
   "whom", "this", "that", "these", "those", "for", "with", "about",
   "into", "through", "during", "before", "after", "above", "below",
   "from", "up", "down", "in", "out", "on", "off", "over", "under",
   "again", "further", "then", "once", "here", "there", "all", "each",
   "few", "more", "most", "other", "some", "such", "no", "nor", "not",
   "only", "own", "same", "so", "than", "too", "very", "just",
   "的", "是", "在", "了", "和", "与", "或", "但", "如果", "那么",
   "这", "那", "这个", "那个", "我", "你", "他", "她", "它",
   "我们", "你们", "他们"]

/-- A character kept by `replace(/[^\w\s一-鿿]/g, " ")`: ASCII word
characters, whitespace, or CJK unified ideographs. -/
def keepChar (c : Char) : Bool :=
  c.isAlphanum || c == '_' || c.isWhitespace ||
    (Nat.ble 0x4e00 c.toNat && Nat.ble c.toNat 0x9fff)

/-- `extractKeywords` (`src/memory/store.ts`, lines 376–501): lowercase,
replace every non-word/non-CJK character by a space, split on whitespace,
drop tokens of length ≤ 2 and stop words, deduplicate. -/
def extractKeywords (text : String) : List String :=
  if text.data.all Char.isWhitespace then []
  else
    let cleaned :=
      (text.data.map Char.toLower).map (fun c => if keepChar c then c else ' ')
    let words :=
      ((splitChars Char.isWhitespace cleaned).map String.mk).filter
        (fun w => 2 < w.length)
    dedupFirst (words.filter (fun w => !stopWords.contains w))

/-! ## Keyword-path retrieval (`src/memory/store.ts`, lines 284–371) -/

/-- The `method` tag of a retrieval result. -/
inductive RetrievalMethod where
  | keyword
  | importance
  | recency
  | all
  | vector
  | hybrid
deriving Repr, DecidableEq

/-- `MemoryRetrievalResult` from `src/memory/types.ts`. -/
structure MemoryRetrievalResult where
  memories : List MemoryEntry
  totalMemories : Nat
  truncated : Bool
  method : RetrievalMethod
deriving Repr, DecidableEq

/-- Options of `retrieveMemories`. -/
structure RetrieveOptions where
  maxMemories : Option Nat
  minImportance : Option Int
  keywords : Option (List String)
  sortBy : Option SortBy
deriving Repr, DecidableEq

/-- The per-entry keyword filter of `retrieveMemories` (lines 321–330):
match the entry's own keywords when present and non-empty, otherwise match
the content, in both cases by case-folded substring containment. -/
def entryMatchesKeywords (searchKeywords : List String) (e : MemoryEntry) : Bool :=
  match e.keywords with
  | some ks =>
    if 0 < ks.length then
      ks.any (fun k => searchKeywords.any (fun sk => strContains (lowerStr k) (lowerStr sk)))
    else
      searchKeywords.any (fun sk => strContains (lowerStr e.content) (lowerStr sk))
  | none =>
    searchKeywords.any (fun sk => strContains (lowerStr e.content) (lowerStr sk))

/-- Bump the first entry with the given id: `entry.lastAccessedAt = now;
entry.accessCount += 1`. -/
def bumpFirstEntry (entries : List MemoryEntry) (memoryId now : String) :
    List MemoryEntry :=
  match entries with
  | [] => []
  | e :: es =>
    if e.id == memoryId then
      { e with lastAccessedAt := now, accessCount := e.accessCount + 1 } :: es
    else
      e :: bumpFirstEntry es memoryId now

/-- The access-bookkeeping loop of `retrieveMemories` (lines 354–362): for
each returned memory, find the first book entry with its id and bump it. -/
def bumpReturned (entries : List MemoryEntry) (memories : List MemoryEntry)
    (now : String) : List MemoryEntry :=
  memories.foldl (fun es m => bumpFirstEntry es m.id now) entries

/-- Descending-by-importance comparator `(a, b) => (b.importance ?? 50) -
(a.importance ?? 50)`. -/
def importanceDescLe (a b : MemoryEntry) : Bool :=
  decide (b.importance.getD 50 ≤ a.importance.getD 50)

/-- Descending-by-recency comparator.  `new Date(s).getTime()` on the
canonical ISO-8601 timestamps orders like the lexicographic string order,
which is used as the model of the timestamp order. -/
def recencyDescLe (a b : MemoryEntry) : Bool :=
  decide (b.lastAccessedAt ≤ a.lastAccessedAt)

/-- Descending-by-access-count comparator. -/
def accessCountDescLe (a b : MemoryEntry) : Bool :=
  decide (b.accessCount ≤ a.accessCount)

/-- `retrieveMemories` (`src/memory/store.ts`, lines 286–371).  The code
mutates the book's entry objects after building the returned `memories`
array from references into `book.entries`; the pure model returns the
selected entries as they were read and applies the access bookkeeping to
the book that is saved back. -/
def retrieveMemories (st : MemoryStore) (bookId : String) (context : String)
    (options : RetrieveOptions) (now : String) :
    MemoryRetrievalResult × MemoryStore :=
  match loadMemoryBook st bookId with
  | none =>
    ({ memories := [], totalMemories := 0, truncated := false, method := .all }, st)
  | some book =>
    let maxMemories := options.maxMemories.getD book.settings.maxMemoriesPerRequest
    let minImportance := options.minImportance.getD book.settings.minImportanceForInjection
    let sortBy := options.sortBy.getD book.settings.sortBy
    let filtered := book.entries.filter
      (fun e => e.enabled && decide (minImportance ≤ e.importance.getD 50))
    let searchKeywords := options.keywords.getD (extractKeywords context)
    let keywordPhase :=
      if 0 < searchKeywords.length && book.settings.useKeywordRetrieval then
        (RetrievalMethod.keyword, filtered.filter (entryMatchesKeywords searchKeywords))
      else
        (RetrievalMethod.all, filtered)
    let method := keywordPhase.1
    let sortPhase :=
      match sortBy with
      | .importance =>
        ((if method = RetrievalMethod.keyword then RetrievalMethod.keyword else RetrievalMethod.importance),
         keywordPhase.2.mergeSort importanceDescLe)
      | .recency =>
        ((if method = RetrievalMethod.keyword then RetrievalMethod.keyword else RetrievalMethod.recency),
         keywordPhase.2.mergeSort recencyDescLe)
      | .accessCount => (method, keywordPhase.2.mergeSort accessCountDescLe)
    let truncated := decide (maxMemories < sortPhase.2.length)
    let memories := sortPhase.2.take maxMemories
    let book' := { book with entries := bumpReturned book.entries memories now }
    ({ memories := memories
     , totalMemories := book.entries.length
     , truncated := truncated
     , method := sortPhase.1 },
     saveMemoryBook st book' now)

/-! ## Vector-path retrieval (store.ts vector-search integration)

`retrieveMemoriesWithVector` consults the process-wide `VectorMemoryStore`.
Whether an embedding backend is available and what
`vectorStore.search(bookId, context, { maxResults: maxMemories * 2,
minScore, useHybrid })` returns involve network calls, so they enter the
model as the explicit `available` flag and `searchOutcome` value (an
`Except` capturing a thrown search error). -/

/-- The match tag of a scored search result. -/
inductive MatchType where
  | vector
  | keyword
  | hybrid
deriving Repr, DecidableEq

/-- `VectorSearchResult` from the vector store. -/
structure VectorSearchResult where
  entry : MemoryEntry
  score : ℚ
  matchType : MatchType
deriving Repr, DecidableEq

/-- Options of `retrieveMemoriesWithVector`. -/
structure VectorRetrieveOptions where
  maxMemories : Option Nat
  minImportance : Option Int
  minScore : Option ℚ
  useHybrid : Option Bool
deriving Repr, DecidableEq

/-- `VectorRetrievalResult`. -/
structure VectorRetrievalResult where
  memories : List MemoryEntry
  totalMemories : Nat
  truncated : Bool
  method : RetrievalMethod
  vectorSearchUsed : Bool
  scores : Option (List ℚ)
deriving Repr, DecidableEq

/-- `retrieveMemoriesWithVector` (vector-variant store, lines 617–697):
when a vector backend is available and the search succeeds, filter its
results by `enabled` and importance, take the top `maxMemories`, bump the
returned entries in the canonical book and save it; on an unavailable
backend or a thrown search error, fall back to keyword retrieval. -/
def retrieveMemoriesWithVector (st : MemoryStore) (bookId context : String)
    (options : VectorRetrieveOptions) (available : Bool)
    (searchOutcome : Except Unit (List VectorSearchResult)) (now : String) :
    VectorRetrievalResult × MemoryStore :=
  match loadMemoryBook st bookId with
  | none =>
    ({ memories := [], totalMemories := 0, truncated := false, method := .all
     , vectorSearchUsed := false, scores := none }, st)
  | some book =>
    let maxMemories := options.maxMemories.getD book.settings.maxMemoriesPerRequest
    let minImportance := options.minImportance.getD book.settings.minImportanceForInjection
    let useHybrid := options.useHybrid.getD true
    let fallback :=
      let r := retrieveMemories st bookId context
        { maxMemories := some maxMemories, minImportance := some minImportance
        , keywords := none, sortBy := none } now
      ({ memories := r.1.memories, totalMemories := r.1.totalMemories
       , truncated := r.1.truncated, method := r.1.method
       , vectorSearchUsed := false, scores := none }, r.2)
    if available then
      match searchOutcome with
      | .error _ => fallback
      | .ok results =>
        let filtered := results.filter
          (fun r => r.entry.enabled && decide (minImportance ≤ r.entry.importance.getD 50))
        let memories := (filtered.take maxMemories).map (fun r => r.entry)
        let scores := (filtered.take maxMemories).map (fun r => r.score)
        let book' := { book with entries := bumpReturned book.entries memories now }
        ({ memories := memories
         , totalMemories := book.entries.length
         , truncated := decide (maxMemories < filtered.length)
         , method := if useHybrid then .hybrid else .vector
         , vectorSearchUsed := true
         , scores := some scores },
         saveMemoryBook st book' now)
    else fallback

/-! ## Cosine similarity (`src/memory/embedding-manager.ts`, lines 84–101)

Vector components are JS double-precision numbers; the arithmetic is
modelled over the real numbers (so the statements below are about the
ideal real-number semantics of the formula, including its small-magnitude
guard). -/

open Classical in
/-- `cosineSimilarity(a, b)`: 0 for vectors of different lengths, and 0
when `sqrt(normA) * sqrt(normB)` falls below `1e-10`, otherwise the dot
product divided by that magnitude. -/
noncomputable def cosineSimilarity (a b : List ℝ) : ℝ :=
  if a.length ≠ b.length then 0
  else
    let dotProduct := (List.zipWith (fun x y => x * y) a b).sum
    let normA := (a.map (fun x => x * x)).sum
    let normB := (b.map (fun x => x * x)).sum
    let magnitude := Real.sqrt normA * Real.sqrt normB
    if magnitude < 1e-10 then 0 else dotProduct / magnitude

/-! ## The per-book SQLite index (`src/memory/memory-index.ts`)

The database behind `MemoryVectorIndex`: an `entries` table keyed by entry
id, a `vectors` table keyed by entry id, and a `meta` key/value table.  Rows
appear in insertion (rowid) order.  The `keywords` column stores
`JSON.stringify(entry.keywords)` or NULL; it is modelled as the decoded
list, with the JSON text reconstructed where SQLite's `LIKE` reads the
column (JSON round-trips the strings exactly).  The FTS5 table is an
external-content projection of `entries`; this model takes the documented
`LIKE`-fallback path of `searchKeyword`, which reads `entries` directly
(the spec requires the two engines to agree on results). -/

/-- One row of the `entries` table. -/
structure EntryRow where
  id : String
  content : String
  created_at : String
  last_accessed_at : String
  access_count : Nat
  type : EntryType
  keywords : Option (List String)
  importance : Int
  category : Option String
  source : Option String
  enabled : Bool
deriving Repr, DecidableEq

/-- One row of the `vectors` table. -/
structure VectorRow where
  entry_id : String
  embedding : List ℝ
  model : String
  created_at : String

/-- The database file of one book. -/
structure IndexDB where
  entries : List EntryRow
  vectors : List VectorRow
  meta : List (String × String)

/-- The `MemoryVectorIndex` object: its database plus the in-memory
`this.model` field. -/
structure MemoryVectorIndex where
  db : IndexDB
  model : Option String

/-- The `INSERT ... VALUES ...` of `indexEntry` (lines 177–206): the row
written for a `MemoryEntry`, with `importance ?? 50`, `category ?? null`,
`source ?? null` and `enabled ? 1 : 0` applied. -/
def entryToRow (entry : MemoryEntry) : EntryRow :=
  { id := entry.id
  , content := entry.content
  , created_at := entry.createdAt
  , last_accessed_at := entry.lastAccessedAt
  , access_count := entry.accessCount
  , type := entry.type
  , keywords := entry.keywords
  , importance := entry.importance.getD 50
  , category := entry.category
  , source := entry.source
  , enabled := entry.enabled }

/-- `rowToEntry` (lines 584–610). -/
def rowToEntry (row : EntryRow) : MemoryEntry :=
  { id := row.id
  , content := row.content
  , createdAt := row.created_at
  , lastAccessedAt := row.last_accessed_at
  , accessCount := row.access_count
  , type := row.type
  , keywords := row.keywords
  , importance := some row.importance
  , category := row.category
  , source := row.source
  , enabled := row.enabled }

/-- `INSERT ... ON CONFLICT(id) DO UPDATE SET ...` on `entries`: on
conflict every column except `id` and `created_at` is replaced (the update
list omits `created_at`); otherwise the row is appended. -/
def upsertEntryRow (rows : List EntryRow) (row : EntryRow) : List EntryRow :=
  if rows.any (fun r => r.id == row.id) then
    rows.map (fun r => if r.id == row.id then { row with created_at := r.created_at } else r)
  else
    rows ++ [row]

/-- `INSERT ... ON CONFLICT(entry_id) DO UPDATE SET ...` on `vectors`:
on conflict the embedding, model and write time are all replaced. -/
def upsertVectorRow (rows : List VectorRow) (row : VectorRow) : List VectorRow :=
  if rows.any (fun r => r.entry_id == row.entry_id) then
    rows.map (fun r => if r.entry_id == row.entry_id then row else r)
  else
    rows ++ [row]

/-- `INSERT OR REPLACE INTO meta (key, value)`. -/
def metaSet (meta : List (String × String)) (key value : String) :
    List (String × String) :=
  if meta.any (fun p => p.1 == key) then
    meta.map (fun p => if p.1 == key then (key, value) else p)
  else
    meta ++ [(key, value)]

/-- `indexEntry(entry, embedding, model)` (lines 173–247): upsert the
entry row and the vector row, refresh the FTS projection (derived from
`entries` in this model), and update the `model`/`last_updated`
metadata. -/
def indexEntry (ix : MemoryVectorIndex) (entry : MemoryEntry)
    (embedding : List ℝ) (model now : String) : MemoryVectorIndex :=
  let db0 := ix.db
  let db1 := { db0 with entries := upsertEntryRow db0.entries (entryToRow entry) }
  let newVector : VectorRow := ⟨entry.id, embedding, model, now⟩
  let db2 := { db1 with vectors := upsertVectorRow db1.vectors newVector }
  let modelPhase :=
    if ix.model ≠ some model then
      (some model, { db2 with meta := metaSet db2.meta "model" model })
    else (ix.model, db2)
  let db3 := { modelPhase.2 with meta := metaSet modelPhase.2.meta "last_updated" now }
  ⟨db3, modelPhase.1⟩

/-- One element of an `indexBatch` input. -/
structure BatchItem where
  entry : MemoryEntry
  embedding : List ℝ

/-- The transaction body of `indexBatch` (lines 252–263): index the items
in order inside `BEGIN TRANSACTION`; the first item whose low-level write
throws (captured by the `fails` predicate, since SQLite errors are runtime
events outside the pure model) triggers `ROLLBACK` — restoring the
database snapshot, though not the in-memory `this.model` field — and the
error is re-thrown.  Reaching the end commits. -/
def indexBatchGo (fails : BatchItem → Bool) (model now : String)
    (snapshot : IndexDB) : MemoryVectorIndex → List BatchItem →
    Except String Unit × MemoryVectorIndex
  | cur, [] => (Except.ok (), cur)
  | cur, item :: rest =>
    if fails item then
      (Except.error "index write failed", ⟨snapshot, cur.model⟩)
    else
      indexBatchGo fails model now snapshot
        (indexEntry cur item.entry item.embedding model now) rest

/-- `indexBatch(entries, model)`. -/
def indexBatch (fails : BatchItem → Bool) (ix : MemoryVectorIndex)
    (items : List BatchItem) (model now : String) :
    Except String Unit × MemoryVectorIndex :=
  indexBatchGo fails model now ix.db ix items

/-- A scored search hit (`ScoredMemoryEntry`). -/
structure ScoredMemoryEntry where
  entry : MemoryEntry
  score : ℝ
  matchType : MatchType

open Classical in
/-- `searchVector(queryEmbedding, limit, minScore)` (lines 288–333): join
enabled `entries` rows with their vectors (at most one per id, `entry_id`
being the primary key), score each by cosine similarity, keep scores
`>= minScore`, sort descending and take `limit`. -/
noncomputable def searchVector (db : IndexDB) (queryEmbedding : List ℝ)
    (limit : Nat) (minScore : ℝ) : List ScoredMemoryEntry :=
  let rows := db.entries.filterMap (fun e =>
    if e.enabled then
      (db.vectors.find? (fun v => v.entry_id == e.id)).map (fun v => (e, v.embedding))
    else none)
  let scored := rows.filterMap (fun p =>
    let score := cosineSimilarity queryEmbedding p.2
    if minScore ≤ score then
      some (⟨rowToEntry p.1, score, MatchType.vector⟩ : ScoredMemoryEntry)
    else none)
  (scored.mergeSort (fun a b => decide (b.score ≤ a.score))).take limit

/-- `JSON.stringify` of a string array (no escaping is needed for the
characters that can influence a keyword `LIKE` probe here). -/
def jsonStringArray (ks : List String) : String :=
  "[" ++ String.intercalate "," (ks.map (fun k => "\"" ++ k ++ "\"")) ++ "]"

/-- One `(content LIKE ? OR keywords LIKE ?)` disjunct of the `LIKE`
fallback, for a (lowercased) token: SQLite `LIKE` is ASCII
case-insensitive, modelled by case-folding the column text. -/
def likeMatches (e : EntryRow) (kw : String) : Bool :=
  strContains (lowerStr e.content) kw ||
    (match e.keywords with
     | some ks => strContains (lowerStr (jsonStringArray ks)) kw
     | none => false)

open Classical in
/-- `searchKeyword(query, limit)` (lines 338–392): tokenize the query,
return nothing when no token survives, otherwise select the enabled rows
matching any token (the `LIKE` fallback path; the FTS path must agree on
results per the design) limited to `limit`, each with the default score
0.5 used when no engine rank is present. -/
noncomputable def searchKeyword (db : IndexDB) (query : String) (limit : Nat) :
    List ScoredMemoryEntry :=
  let keywords := splitTokens query
  if keywords.isEmpty then []
  else
    let rows := (db.entries.filter
      (fun e => e.enabled && keywords.any (likeMatches e))).take limit
    rows.map (fun row => ⟨rowToEntry row, 0.5, MatchType.keyword⟩)

/-- The association-list model of the JS `Map` used by `hybridSearch`:
lookup by key. -/
def mapGet (m : List (String × ScoredMemoryEntry)) (k : String) :
    Option ScoredMemoryEntry :=
  (m.find? (fun p => p.1 == k)).map (fun p => p.2)

/-- `Map.set`: overwrite in place when the key exists (keeping its
position), append otherwise. -/
def mapSet (m : List (String × ScoredMemoryEntry)) (k : String)
    (v : ScoredMemoryEntry) : List (String × ScoredMemoryEntry) :=
  if m.any (fun p => p.1 == k) then
    m.map (fun p => if p.1 == k then (k, v) else p)
  else
    m ++ [(k, v)]

/-- Options of `hybridSearch`. -/
structure HybridSearchOptions where
  vectorWeight : Option ℝ
  keywordWeight : Option ℝ
  minScore : Option ℝ

/-- The body of the first merge loop of `hybridSearch` (lines 462–468):
record a vector hit under its entry id with its weighted score. -/
noncomputable def mergeVector (vectorWeight : ℝ)
    (m : List (String × ScoredMemoryEntry)) (r : ScoredMemoryEntry) :
    List (String × ScoredMemoryEntry) :=
  mapSet m r.entry.id ⟨r.entry, r.score * vectorWeight, MatchType.vector⟩

/-- The body of the second merge loop of `hybridSearch` (lines 470–484):
an entry already seen by the vector pass becomes `hybrid` with the
keyword term added to its score, a fresh one is recorded as `keyword`. -/
noncomputable def mergeKeyword (keywordWeight : ℝ)
    (m : List (String × ScoredMemoryEntry)) (r : ScoredMemoryEntry) :
    List (String × ScoredMemoryEntry) :=
  match mapGet m r.entry.id with
  | some existing =>
    mapSet m r.entry.id
      ⟨existing.entry, existing.score + r.score * keywordWeight, MatchType.hybrid⟩
  | none =>
    mapSet m r.entry.id ⟨r.entry, r.score * keywordWeight, MatchType.keyword⟩

open Classical in
/-- `hybridSearch(queryEmbedding, queryText, limit, options)` (lines
446–498): run both searches for `limit * 2` candidates, merge by entry id
into a `Map` (weighted vector scores first, then keyword hits either
upgrading an existing entry to `hybrid` by adding the weighted keyword
score, or entering as `keyword`), filter by `minScore` on the combined
score, sort descending and take `limit`. -/
noncomputable def hybridSearch (db : IndexDB) (queryEmbedding : List ℝ)
    (queryText : String) (limit : Nat) (options : Option HybridSearchOptions) :
    List ScoredMemoryEntry :=
  let vectorWeight := (options.bind (fun o => o.vectorWeight)).getD 0.7
  let keywordWeight := (options.bind (fun o => o.keywordWeight)).getD 0.3
  let minScore := (options.bind (fun o => o.minScore)).getD 0
  let vectorResults := searchVector db queryEmbedding (limit * 2) 0
  let keywordResults := searchKeyword db queryText (limit * 2)
  let merged := vectorResults.foldl (mergeVector vectorWeight) []
  let merged2 := keywordResults.foldl (mergeKeyword keywordWeight) merged
  let results := ((merged2.map (fun p => p.2)).filter
    (fun r => decide (minScore ≤ r.score))).mergeSort
      (fun a b => decide (b.score ≤ a.score))
  results.take limit

/-! ## LLM auto-extractor (`src/memory/auto-extractor.ts`)

The extractor parses the LLM's response, deduplicates each candidate
against the vector store and commits the rest with
`addMemoryWithVector`.  The LLM call and the vector store's similarity
search are network effects; they enter the model as the already-parsed
response records and an explicit search oracle (the result of
`vectorStore.search(bookId, content, { maxResults: 3, minScore:
similarityThreshold })`, an `Except` capturing a thrown error). -/

/-- A raw candidate record as found inside the parsed JSON block: every
field may be absent or of the wrong shape (absent here; the
`typeof`/`Array.isArray` probes are part of the decoding). -/
structure RawExtractedMemory where
  content : Option String
  keywords : Option (List String)
  importance : Option Int
  category : Option String
deriving Repr, DecidableEq

/-- A validated `ExtractedMemory`. -/
structure ExtractedMemory where
  content : String
  keywords : List String
  importance : Int
  category : String
deriving Repr, DecidableEq

/-- The closed category set of `validateCategory` (lines 702–710). -/
def validCategories : List String :=
  ["fact", "preference", "relationship", "event", "trait", "other"]

/-- `validateCategory`: any unrecognized value becomes `"other"`. -/
def validateCategory (category : Option String) : String :=
  match category with
  | some c => if validCategories.contains c then c else "other"
  | none => "other"

/-- The mapping stage of `parseExtractionResponse` (lines 665–697), the
part after the JSON block has been located and parsed (malformed output
reaches this point as the empty list): drop records without truthy string
content, default missing keywords to `[]`, clamp the importance with
`Math.min(10, Math.max(1, m.importance))` defaulting to 5, and validate
the category. -/
def parseExtractionResponse (parsed : List RawExtractedMemory) :
    List ExtractedMemory :=
  (parsed.filter (fun m =>
    match m.content with
    | some c => c ≠ ""
    | none => false)).map
    (fun m =>
      { content := m.content.getD ""
      , keywords := m.keywords.getD []
      , importance :=
          match m.importance with
          | some n => min 10 (max 1 n)
          | none => 5
      , category := validateCategory m.category })

/-- `isDuplicateMemory(bookId, content, similarityThreshold)` (lines
715–734): `false` when no vector backend is available or the similarity
search throws, otherwise whether some returned hit scores at or above the
threshold. -/
def isDuplicateMemory (available : Bool)
    (search : String → Except Unit (List VectorSearchResult))
    (content : String) (similarityThreshold : ℚ) : Bool :=
  if !available then false
  else
    match search content with
    | .error _ => false
    | .ok results => results.any (fun r => decide (similarityThreshold ≤ r.score))

/-- `addMemoryWithVector` (vector-variant store, lines 722–750): the
canonical `addMemory` write, followed by a best-effort vector indexing
that never alters canonical storage (its failure is swallowed); only the
canonical effect is modelled. -/
def addMemoryWithVector (st : MemoryStore) (bookId : String)
    (params : AddMemoryParams) (now freshId : String) :
    Option MemoryEntry × MemoryStore :=
  addMemory st bookId params now freshId

/-- The identity fields of an `ExtractionContext` (the message list only
feeds the prompt builder, which is upstream of the modelled pipeline). -/
structure ExtractionContext where
  characterName : Option String
  sessionKey : Option String
deriving Repr, DecidableEq

/-- Accumulator of the extraction loop. -/
structure AutoExtractState where
  store : MemoryStore
  saved : List MemoryEntry
  duplicates : List ExtractedMemory
  nextId : Nat

/-- The `for (const memory of extracted)` loop body of
`autoExtractMemories` (lines 774–794): discard duplicates, commit the
rest.  Entry ids are drawn from the `gen` stream. -/
def autoExtractStep (available : Bool)
    (search : String → Except Unit (List VectorSearchResult))
    (threshold : ℚ) (bookId : String) (now : String) (gen : Nat → String)
    (acc : AutoExtractState) (memory : ExtractedMemory) : AutoExtractState :=
  if isDuplicateMemory available search memory.content threshold then
    { acc with duplicates := acc.duplicates ++ [memory] }
  else
    let add := addMemoryWithVector acc.store bookId
      { content := memory.content
      , type := none
      , keywords := some memory.keywords
      , importance := some memory.importance
      , category := some memory.category
      , source := none } now (gen acc.nextId)
    match add.1 with
    | some entry =>
      { store := add.2, saved := acc.saved ++ [entry]
      , duplicates := acc.duplicates, nextId := acc.nextId + 1 }
    | none =>
      { acc with store := add.2, nextId := acc.nextId + 1 }

/-- Result triple of `autoExtractMemories`. -/
structure AutoExtractResult where
  extracted : List ExtractedMemory
  saved : List MemoryEntry
  duplicates : List ExtractedMemory

/-- `autoExtractMemories(params)` (lines 739–797): parse the response
(here: its parsed JSON records), stop on an empty result, find or create
the target book (the code passes `characterId: context.characterName`),
then deduplicate and commit each candidate in order.  The deduplication
threshold defaults to 0.85. -/
def autoExtractMemories (st : MemoryStore) (available : Bool)
    (search : String → Except Unit (List VectorSearchResult))
    (parsedResponse : List RawExtractedMemory) (context : ExtractionContext)
    (deduplicateThreshold : Option ℚ) (now freshBookId : String)
    (gen : Nat → String) : AutoExtractResult × MemoryStore :=
  let threshold := deduplicateThreshold.getD (85 / 100)
  let extracted := parseExtractionResponse parsedResponse
  if extracted.isEmpty then
    ({ extracted := extracted, saved := [], duplicates := [] }, st)
  else
    let bookPhase := getOrCreateMemoryBook st
      { characterId := context.characterName
      , characterName := none
      , sessionKey := context.sessionKey } now freshBookId
    let final := extracted.foldl
      (autoExtractStep available search threshold bookPhase.1.id now gen)
      { store := bookPhase.2, saved := [], duplicates := [], nextId := 0 }
    ({ extracted := extracted, saved := final.saved
     , duplicates := final.duplicates }, final.store)

/-! ## Helper lemmas -/

theorem serializeEmbedding_cons (w : Nat) (ws : List Nat) :
    serializeEmbedding (w :: ws) =
      w % 256 :: w / 256 % 256 :: w / 65536 % 256 :: w / 16777216 % 256 ::
        serializeEmbedding ws := by
  simp [serializeEmbedding, word32Bytes]

theorem loadMemoryBook_eq_some_id {st : MemoryStore} {bookId : String}
    {book : MemoryBook} (h : loadMemoryBook st bookId = some book) :
    book.id = bookId := by
  have := List.find?_some h
  simpa using this

theorem loadMemoryBook_mem {st : MemoryStore} {bookId : String}
    {book : MemoryBook} (h : loadMemoryBook st bookId = some book) :
    book ∈ st :=
  List.mem_of_find?_eq_some h

/-- Looking up a freshly saved book by its id returns the saved document. -/
theorem find?_id_map_replace (bs : List MemoryBook) (stored : MemoryBook)
    (key : String) (hkey : stored.id = key) :
    List.find? (fun x => x.id == key)
        (bs.map (fun b => if b.id == key then stored else b)) =
      if bs.any (fun b => b.id == key) then some stored
      else List.find? (fun x => x.id == key) bs := by
  induction bs with
  | nil => simp
  | cons b bs ih =>
    by_cases hb : (b.id == key) = true
    · have hbid : b.id = key := by simpa using hb
      simp [List.map_cons, List.find?_cons, hbid, hkey]
    · have hb' : (b.id == key) = false := by simpa using hb
      simp only [List.map_cons, List.find?_cons, List.any_cons, hb',
        Bool.false_or, if_false, Bool.false_eq_true]
      exact ih

/-- Looking up a freshly saved book by its id returns the saved document. -/
theorem loadMemoryBook_saveMemoryBook (st : MemoryStore) (book : MemoryBook)
    (now : String) :
    loadMemoryBook (saveMemoryBook st book now) book.id =
      some { book with updatedAt := now } := by
  unfold loadMemoryBook saveMemoryBook
  simp only []
  split
  · rename_i hany
    rw [find?_id_map_replace st { book with updatedAt := now } book.id rfl,
      if_pos hany]
  · rename_i hany
    rw [List.find?_append]
    have hnone : List.find? (fun x => x.id == book.id) st = none := by
      rw [List.find?_eq_none]
      intro b hb hcon
      exact hany (List.any_eq_true.2 ⟨b, hb, hcon⟩)
    rw [hnone]
    simp

/-- A book present in the store makes lookup of its id succeed (with some
document, not necessarily the same one). -/
theorem loadMemoryBook_isSome_of_mem {st : MemoryStore} {b : MemoryBook}
    (h : b ∈ st) : ∃ b', loadMemoryBook st b.id = some b' := by
  unfold loadMemoryBook
  have : (st.find? (fun x => x.id == b.id)).isSome := by
    apply List.find?_isSome.2
    exact ⟨b, h, by simp⟩
  obtain ⟨b', hb'⟩ := Option.isSome_iff_exists.1 this
  exact ⟨b', hb'⟩

/-! ## Claim theorems -/

/-- Claim C4: for every embedding vector — of length 0, 1, or any other —
deserializing its serialization recovers it exactly.  A float32 value is
modelled by its 32-bit pattern, so "to 4-byte float precision" is the
identity here, and a vector of exactly representable components
round-trips to itself. -/
theorem deserializeEmbedding_serializeEmbedding (v : List Nat)
    (h : ∀ w ∈ v, w < 2 ^ 32) :
    deserializeEmbedding (serializeEmbedding v) = v := by
  induction v with
  | nil => rfl
  | cons w ws ih =>
    have hw : w < 2 ^ 32 := h w (List.mem_cons_self _ _)
    have hws : ∀ x ∈ ws, x < 2 ^ 32 := fun x hx => h x (List.mem_cons_of_mem _ hx)
    rw [serializeEmbedding_cons, deserializeEmbedding, ih hws]
    congr 1
    omega

/-- Witness for C4: a concrete round trip, using the float32 bit patterns
of 0.0, 1.4e-45 (the smallest subnormal), 1.0 and NaN-with-all-bits-set. -/
theorem deserializeEmbedding_serializeEmbedding_witness :
    (∀ w ∈ [0, 1, 1065353216, 4294967295], w < 2 ^ 32) ∧
      deserializeEmbedding (serializeEmbedding [0, 1, 1065353216, 4294967295]) =
        [0, 1, 1065353216, 4294967295] :=
  ⟨by decide, deserializeEmbedding_serializeEmbedding _ (by decide)⟩

/-- The concrete book used to exhibit the importance-clamping divergence. -/
def clampProbeBook : MemoryBook :=
  { id := "b"
  , name := "B"
  , characterId := none
  , sessionKey := none
  , createdAt := "t0"
  , updatedAt := "t0"
  , entries := []
  , settings := DEFAULT_BOOK_SETTINGS }

/-- Claim C7 (the code violates it): `addMemory` with `importance: 150`
returns and persists an entry whose stored importance is 150, outside
[0, 100], and `updateMemory` with `importance: -5` stores -5 — neither
operation clamps. -/
theorem addMemory_updateMemory_do_not_clamp :
    ((addMemory [clampProbeBook] "b"
        ⟨"x", none, none, some 150, none, none⟩ "t1" "m1").1.map
        (fun e => e.importance) = some (some 150))
  ∧ ((loadMemoryBook
        (addMemory [clampProbeBook] "b"
          ⟨"x", none, none, some 150, none, none⟩ "t1" "m1").2 "b").map
        (fun b => b.entries.map (fun e => e.importance)) = some [some 150])
  ∧ ((updateMemory
        (addMemory [clampProbeBook] "b"
          ⟨"x", none, none, some 150, none, none⟩ "t1" "m1").2 "b" "m1"
        ⟨none, none, none, none, none, some (-5), none, none, none⟩ "t2").1.map
        (fun e => e.importance) = some (some (-5))) := by
  refine ⟨rfl, rfl, rfl⟩

theorem find?_saveMemoryBook_of_none (st : MemoryStore) (book : MemoryBook)
    (now : String) (p : MemoryBook → Bool)
    (hst : List.find? p st = none)
    (hp : p { book with updatedAt := now } = true) :
    List.find? p (saveMemoryBook st book now) =
      some { book with updatedAt := now } := by
  unfold saveMemoryBook
  simp only []
  split
  · rename_i hany
    induction st with
    | nil => simp at hany
    | cons b bs ih =>
      have hpb : p b = false := by
        have := List.find?_eq_none.1 hst b (List.mem_cons_self _ _)
        simpa using this
      have hst' : List.find? p bs = none := by
        rw [List.find?_eq_none] at hst ⊢
        intro x hx
        exact hst x (List.mem_cons_of_mem _ hx)
      by_cases hb : (b.id == book.id) = true
      · have hbid : b.id = book.id := by simpa using hb
        simp [List.map_cons, List.find?_cons, hbid, hp]
      · have hb' : (b.id == book.id) = false := by simpa using hb
        have hany' : (bs.any fun x => x.id == book.id) = true := by
          simpa [List.any_cons, hb'] using hany
        simp only [List.map_cons, List.find?_cons, hb', Bool.false_eq_true,
          if_false, hpb]
        exact ih hst' hany'
  · rw [List.find?_append, hst]
    simp [hp]

theorem saveMemoryBook_append (st : MemoryStore) (book : MemoryBook)
    (now : String) (h : ∀ b ∈ st, b.id ≠ book.id) :
    saveMemoryBook st book now = st ++ [{ book with updatedAt := now }] := by
  unfold saveMemoryBook
  simp only []
  rw [if_neg]
  intro hcon
  obtain ⟨b, hb, hbid⟩ := List.any_eq_true.1 hcon
  exact h b hb (by simpa using hbid)

theorem createMemoryBook_snd (st : MemoryStore) (name : String)
    (characterId sessionKey : Option String) (now freshId : String) :
    (createMemoryBook st name characterId sessionKey now freshId).2 =
      saveMemoryBook st
        (createMemoryBook st name characterId sessionKey now freshId).1 now :=
  rfl

/-- Claim C8 counterexample: a call that supplies neither `characterId`
nor `sessionKey` skips both lookups and creates a fresh book every time —
the second of two identical calls returns a book with a different id and
the store ends up holding two books, refuting "repeated identical calls
never create a duplicate book". -/
theorem getOrCreateMemoryBook_duplicates_without_key :
    (getOrCreateMemoryBook [] ⟨none, some "X", none⟩ "t1" "id1").1.id = "id1"
  ∧ (getOrCreateMemoryBook
      (getOrCreateMemoryBook [] ⟨none, some "X", none⟩ "t1" "id1").2
      ⟨none, some "X", none⟩ "t2" "id2").1.id = "id2"
  ∧ (getOrCreateMemoryBook
      (getOrCreateMemoryBook [] ⟨none, some "X", none⟩ "t1" "id1").2
      ⟨none, some "X", none⟩ "t2" "id2").2.length = 2 :=
  ⟨rfl, rfl, rfl⟩


/-- The book document built by the create branch of
`getOrCreateMemoryBook`. -/
def freshMemoryBook (params : GetOrCreateParams) (now freshId : String) :
    MemoryBook :=
  { id := freshId
  , name := params.characterName.getD (params.sessionKey.getD "Default")
  , characterId := params.characterId
  , sessionKey := params.sessionKey
  , createdAt := now
  , updatedAt := now
  , entries := []
  , settings := DEFAULT_BOOK_SETTINGS }

theorem getOrCreateMemoryBook_create_case (st : MemoryStore)
    (params : GetOrCreateParams) (now freshId : String)
    (hbc : lookupByCharacterParam st params.characterId = none)
    (hbs : lookupBySessionParam st params.sessionKey = none) :
    getOrCreateMemoryBook st params now freshId =
      (freshMemoryBook params now freshId,
       saveMemoryBook st (freshMemoryBook params now freshId) now) := by
  simp only [getOrCreateMemoryBook, hbc, hbs]
  rfl

theorem getOrCreateMemoryBook_char_case (st : MemoryStore)
    (params : GetOrCreateParams) (now freshId : String) (b : MemoryBook)
    (hbc : lookupByCharacterParam st params.characterId = some b) :
    getOrCreateMemoryBook st params now freshId = (b, st) := by
  simp only [getOrCreateMemoryBook, hbc]

theorem getOrCreateMemoryBook_session_case (st : MemoryStore)
    (params : GetOrCreateParams) (now freshId : String) (b : MemoryBook)
    (hbc : lookupByCharacterParam st params.characterId = none)
    (hbs : lookupBySessionParam st params.sessionKey = some b) :
    getOrCreateMemoryBook st params now freshId = (b, st) := by
  simp only [getOrCreateMemoryBook, hbc, hbs]

/-- Claim C8 (amended): `getOrCreateMemoryBook` is idempotent for calls
that supply a non-empty `characterId` or `sessionKey` — two consecutive
identical calls return books with the same id and the second call changes
nothing, so no duplicate book is created; lookup by `characterId` takes
precedence over `sessionKey`; and a new book is created only when both
lookups fail, named `characterName ?? sessionKey ?? "Default"`.  A call
supplying neither identifier creates a fresh book on every call (see the
counterexample). -/
theorem getOrCreateMemoryBook_keyed_spec (st : MemoryStore)
    (params : GetOrCreateParams) (now1 now2 id1 id2 : String) :
    (((∃ c, params.characterId = some c ∧ c ≠ "") ∨
      (∃ s, params.sessionKey = some s ∧ s ≠ "")) →
      (getOrCreateMemoryBook (getOrCreateMemoryBook st params now1 id1).2
          params now2 id2).1.id =
        (getOrCreateMemoryBook st params now1 id1).1.id ∧
      (getOrCreateMemoryBook (getOrCreateMemoryBook st params now1 id1).2
          params now2 id2).2 =
        (getOrCreateMemoryBook st params now1 id1).2)
  ∧ (∀ c b0, params.characterId = some c → c ≠ "" →
      loadMemoryBookByCharacter st c = some b0 →
      getOrCreateMemoryBook st params now1 id1 = (b0, st))
  ∧ (lookupByCharacterParam st params.characterId = none →
     lookupBySessionParam st params.sessionKey = none →
     (∀ b ∈ st, b.id ≠ id1) →
      (getOrCreateMemoryBook st params now1 id1).1.id = id1 ∧
      (getOrCreateMemoryBook st params now1 id1).1.name =
        params.characterName.getD (params.sessionKey.getD "Default") ∧
      (getOrCreateMemoryBook st params now1 id1).2 =
        st ++ [(getOrCreateMemoryBook st params now1 id1).1]) := by
  refine ⟨?_, ?_, ?_⟩
  · intro hkey
    cases hbc : lookupByCharacterParam st params.characterId with
    | some e =>
      rw [getOrCreateMemoryBook_char_case st params now1 id1 e hbc,
        getOrCreateMemoryBook_char_case st params now2 id2 e hbc]
      exact ⟨rfl, rfl⟩
    | none =>
      cases hbs : lookupBySessionParam st params.sessionKey with
      | some e =>
        rw [getOrCreateMemoryBook_session_case st params now1 id1 e hbc hbs,
          getOrCreateMemoryBook_session_case st params now2 id2 e hbc hbs]
        exact ⟨rfl, rfl⟩
      | none =>
        rw [getOrCreateMemoryBook_create_case st params now1 id1 hbc hbs]
        have hBup : ({ freshMemoryBook params now1 id1 with updatedAt := now1 } :
            MemoryBook) = freshMemoryBook params now1 id1 := rfl
        rcases hcid : params.characterId with _ | c
        · rcases hkey with ⟨c, hc, _⟩ | ⟨s, hs, hsne⟩
          · rw [hcid] at hc; exact absurd hc (by simp)
          · have hsess_none : loadMemoryBookBySession st s = none := by
              have h := hbs
              rw [hs] at h
              simp only [lookupBySessionParam] at h
              rwa [if_neg hsne] at h
            have hfound : loadMemoryBookBySession
                (saveMemoryBook st (freshMemoryBook params now1 id1) now1) s =
                some (freshMemoryBook params now1 id1) := by
              have h := find?_saveMemoryBook_of_none st
                (freshMemoryBook params now1 id1) now1
                (fun b => b.sessionKey == some s) hsess_none
                (by rw [hBup]; simp [freshMemoryBook, hs])
              rw [hBup] at h
              exact h
            have hchar2 : lookupByCharacterParam
                (saveMemoryBook st (freshMemoryBook params now1 id1) now1)
                params.characterId = none := by
              rw [hcid]; rfl
            have hsess2 : lookupBySessionParam
                (saveMemoryBook st (freshMemoryBook params now1 id1) now1)
                params.sessionKey = some (freshMemoryBook params now1 id1) := by
              rw [hs]
              simp only [lookupBySessionParam]
              rw [if_neg hsne]
              exact hfound
            rw [getOrCreateMemoryBook_session_case _ params now2 id2 _ hchar2 hsess2]
            exact ⟨rfl, rfl⟩
        · by_cases hc0 : c = ""
          · rcases hkey with ⟨c', hc', hcne⟩ | ⟨s, hs, hsne⟩
            · rw [hcid] at hc'
              have hcc : c = c' := by simpa using hc'
              exact absurd (hcc ▸ hc0) hcne
            · have hsess_none : loadMemoryBookBySession st s = none := by
                have h := hbs
                rw [hs] at h
                simp only [lookupBySessionParam] at h
                rwa [if_neg hsne] at h
              have hfound : loadMemoryBookBySession
                  (saveMemoryBook st (freshMemoryBook params now1 id1) now1) s =
                  some (freshMemoryBook params now1 id1) := by
                have h := find?_saveMemoryBook_of_none st
                  (freshMemoryBook params now1 id1) now1
                  (fun b => b.sessionKey == some s) hsess_none
                  (by rw [hBup]; simp [freshMemoryBook, hs])
                rw [hBup] at h
                exact h
              have hchar2 : lookupByCharacterParam
                  (saveMemoryBook st (freshMemoryBook params now1 id1) now1)
                  params.characterId = none := by
                rw [hcid]
                simp only [lookupByCharacterParam]
                rw [if_pos hc0]
              have hsess2 : lookupBySessionParam
                  (saveMemoryBook st (freshMemoryBook params now1 id1) now1)
                  params.sessionKey = some (freshMemoryBook params now1 id1) := by
                rw [hs]
                simp only [lookupBySessionParam]
                rw [if_neg hsne]
                exact hfound
              rw [getOrCreateMemoryBook_session_case _ params now2 id2 _ hchar2 hsess2]
              exact ⟨rfl, rfl⟩
          · have hchar_none : loadMemoryBookByCharacter st c = none := by
              have h := hbc
              rw [hcid] at h
              simp only [lookupByCharacterParam] at h
              rwa [if_neg hc0] at h
            have hfound : loadMemoryBookByCharacter
                (saveMemoryBook st (freshMemoryBook params now1 id1) now1) c =
                some (freshMemoryBook params now1 id1) := by
              have h := find?_saveMemoryBook_of_none st
                (freshMemoryBook params now1 id1) now1
                (fun b => b.characterId == some c) hchar_none
                (by rw [hBup]; simp [freshMemoryBook, hcid])
              rw [hBup] at h
              exact h
            have hchar2 : lookupByCharacterParam
                (saveMemoryBook st (freshMemoryBook params now1 id1) now1)
                params.characterId = some (freshMemoryBook params now1 id1) := by
              rw [hcid]
              simp only [lookupByCharacterParam]
              rw [if_neg hc0]
              exact hfound
            rw [getOrCreateMemoryBook_char_case _ params now2 id2 _ hchar2]
            exact ⟨rfl, rfl⟩
  · intro c b0 hc hcne hload
    have hchar : lookupByCharacterParam st params.characterId = some b0 := by
      rw [hc]
      simp only [lookupByCharacterParam]
      rw [if_neg hcne]
      exact hload
    exact getOrCreateMemoryBook_char_case st params now1 id1 b0 hchar
  · intro hbc hbs hfresh
    rw [getOrCreateMemoryBook_create_case st params now1 id1 hbc hbs]
    refine ⟨rfl, rfl, ?_⟩
    rw [saveMemoryBook_append st (freshMemoryBook params now1 id1) now1 hfresh]
    rfl

/-- Witness for C8: a concrete keyed call — the second identical call with
`characterId = "c"` returns the book created by the first call, and the
created book carries the generated id. -/
theorem getOrCreateMemoryBook_keyed_spec_witness :
    ((getOrCreateMemoryBook
        (getOrCreateMemoryBook [] ⟨some "c", some "N", none⟩ "t1" "id1").2
        ⟨some "c", some "N", none⟩ "t2" "id2").1.id =
      (getOrCreateMemoryBook [] ⟨some "c", some "N", none⟩ "t1" "id1").1.id)
  ∧ ((getOrCreateMemoryBook [] ⟨some "c", some "N", none⟩ "t1" "id1").1.id = "id1") :=
  ⟨((getOrCreateMemoryBook_keyed_spec [] ⟨some "c", some "N", none⟩
      "t1" "t2" "id1" "id2").1 (Or.inl ⟨"c", rfl, by decide⟩)).1,
   ((getOrCreateMemoryBook_keyed_spec [] ⟨some "c", some "N", none⟩
      "t1" "t2" "id1" "id2").2.2 rfl rfl (by simp)).1⟩

theorem zipWith_mul_self_sum (v : List ℝ) :
    (List.zipWith (fun x y => x * y) v v).sum = (v.map (fun x => x * x)).sum := by
  induction v with
  | nil => simp
  | cons x xs ih => simp [ih]

theorem zipWith_mul_neg_sum (v : List ℝ) :
    (List.zipWith (fun x y => x * y) v (v.map (fun x => -x))).sum =
      -((v.map (fun x => x * x)).sum) := by
  induction v with
  | nil => simp
  | cons x xs ih => simp [ih]; ring

theorem map_neg_sq_sum (v : List ℝ) :
    ((v.map (fun x => -x)).map (fun x => x * x)).sum =
      (v.map (fun x => x * x)).sum := by
  induction v with
  | nil => simp
  | cons x xs ih =>
    simp only [List.map_cons, List.sum_cons, neg_mul_neg]
    rw [ih]

theorem zipWith_mul_comm (a b : List ℝ) :
    List.zipWith (fun x y => x * y) a b = List.zipWith (fun x y => x * y) b a := by
  induction a generalizing b with
  | nil => cases b <;> simp
  | cons x xs ih =>
    cases b with
    | nil => simp
    | cons y ys => simp [ih, mul_comm]

/-- Claim C5 counterexample: the claim says `cosineSimilarity(v, v) = 1`
for every non-zero `v`, but the small-magnitude guard returns 0 for the
non-zero vector `[1e-6]` (its squared magnitude `1e-12` falls below the
`1e-10` cut-off). -/
theorem cosineSimilarity_self_not_one :
    cosineSimilarity [(1 / 1000000 : ℝ)] [(1 / 1000000 : ℝ)] = 0 ∧
      (1 / 1000000 : ℝ) ≠ 0 := by
  constructor
  · unfold cosineSimilarity
    rw [if_neg (by norm_num)]
    simp only [List.zipWith_cons_cons, List.zipWith_nil_right, List.map_cons,
      List.map_nil, List.sum_cons, List.sum_nil, add_zero]
    rw [Real.mul_self_sqrt (mul_self_nonneg _)]
    rw [if_pos (by norm_num)]
  · norm_num

/-- Claim C5 (amended): `cosineSimilarity(v, v) = 1` and
`cosineSimilarity(v, -v) = -1` hold for every `v` whose squared magnitude
is at least the `1e-10` guard (instead of every non-zero `v`); vectors of
different lengths always score 0; and the function is symmetric. -/
theorem cosineSimilarity_spec :
    (∀ v : List ℝ, (1e-10 : ℝ) ≤ (v.map (fun x => x * x)).sum →
       cosineSimilarity v v = 1 ∧
       cosineSimilarity v (v.map (fun x => -x)) = -1)
  ∧ (∀ a b : List ℝ, a.length ≠ b.length → cosineSimilarity a b = 0)
  ∧ (∀ a b : List ℝ, cosineSimilarity a b = cosineSimilarity b a) := by
  refine ⟨?_, ?_, ?_⟩
  · intro v hv
    have hS0 : (0 : ℝ) ≤ (v.map (fun x => x * x)).sum :=
      le_trans (by norm_num) hv
    have hSne : (v.map (fun x => x * x)).sum ≠ 0 :=
      ne_of_gt (lt_of_lt_of_le (by norm_num) hv)
    constructor
    · unfold cosineSimilarity
      rw [if_neg (by simp)]
      simp only [zipWith_mul_self_sum, Real.mul_self_sqrt hS0]
      rw [if_neg (not_lt.2 hv)]
      exact div_self hSne
    · unfold cosineSimilarity
      rw [if_neg (by simp)]
      simp only [zipWith_mul_neg_sum, map_neg_sq_sum, Real.mul_self_sqrt hS0]
      rw [if_neg (not_lt.2 hv), neg_div, div_self hSne]
  · intro a b h
    unfold cosineSimilarity
    rw [if_pos h]
  · intro a b
    unfold cosineSimilarity
    by_cases h : a.length = b.length
    · have h1 : ¬ a.length ≠ b.length := by simp [h]
      have h2 : ¬ b.length ≠ a.length := by simp [h]
      rw [if_neg h1, if_neg h2]
      simp only [zipWith_mul_comm a b,
        mul_comm (Real.sqrt ((List.map (fun x => x * x) a).sum))
          (Real.sqrt ((List.map (fun x => x * x) b).sum))]
    · rw [if_pos h, if_pos (Ne.symm h)]

/-- Witness for C5: the one-dimensional unit vector passes the magnitude
guard and scores 1 against itself, and vectors of lengths 2 and 1 score
0. -/
theorem cosineSimilarity_spec_witness :
    ((1e-10 : ℝ) ≤ (([(1 : ℝ)]).map (fun x => x * x)).sum ∧
      cosineSimilarity [(1 : ℝ)] [(1 : ℝ)] = 1)
  ∧ cosineSimilarity [(1 : ℝ), 0] [(1 : ℝ)] = 0 :=
  ⟨⟨by norm_num, (cosineSimilarity_spec.1 [(1 : ℝ)] (by norm_num)).1⟩,
   cosineSimilarity_spec.2.1 [(1 : ℝ), 0] [(1 : ℝ)] (by simp)⟩

theorem mem_of_mem_take_mergeSort {α : Type} (le : α → α → Bool) (l : List α)
    (n : Nat) (a : α) (h : a ∈ (l.mergeSort le).take n) : a ∈ l :=
  (l.mergeSort_perm le).mem_iff.1 (List.mem_of_mem_take h)

theorem nodup_map_take_mergeSort {α β : Type} (f : α → β) (le : α → α → Bool)
    (l : List α) (n : Nat) (h : (l.map f).Nodup) :
    (((l.mergeSort le).take n).map f).Nodup := by
  have h1 : ((l.mergeSort le).map f).Nodup :=
    (((l.mergeSort_perm le).map f).nodup_iff).2 h
  exact ((List.take_sublist n (l.mergeSort le)).map f).nodup h1

theorem nodup_map_filter {α β : Type} (f : α → β) (p : α → Bool) (l : List α)
    (h : (l.map f).Nodup) : ((l.filter p).map f).Nodup :=
  ((l.filter_sublist).map f).nodup h

theorem map_if_not {α : Type} (l : List α) (p : α → Bool) (f : α → α)
    (h : ∀ x ∈ l, p x = false) :
    (l.map fun x => if p x then f x else x) = l := by
  induction l with
  | nil => rfl
  | cons x xs ih =>
    have hx := h x (List.mem_cons_self _ _)
    simp only [List.map_cons, hx, Bool.false_eq_true, if_false]
    rw [ih (fun y hy => h y (List.mem_cons_of_mem _ hy))]

theorem bumpFirstEntry_eq_map (es : List MemoryEntry) (memoryId now : String)
    (h : (es.map (fun e => e.id)).Nodup) :
    bumpFirstEntry es memoryId now =
      es.map (fun e =>
        if e.id == memoryId then
          { e with lastAccessedAt := now, accessCount := e.accessCount + 1 }
        else e) := by
  induction es with
  | nil => rfl
  | cons e es ih =>
    simp only [List.map_cons, List.nodup_cons] at h
    by_cases he : (e.id == memoryId) = true
    · have heid : e.id = memoryId := by simpa using he
      have hrest : ∀ x ∈ es, (x.id == memoryId) = false := by
        intro x hx
        have : x.id ≠ e.id := by
          intro hcon
          exact h.1 (hcon ▸ List.mem_map_of_mem (fun e => e.id) hx)
        simp [heid ▸ this]
      simp only [bumpFirstEntry, he, if_true, List.map_cons]
      rw [map_if_not es _ _ hrest]
    · have he' : (e.id == memoryId) = false := by simpa using he
      simp only [bumpFirstEntry, he', Bool.false_eq_true, if_false, List.map_cons]
      rw [ih h.2]

theorem map_bump_ids (es : List MemoryEntry) (memoryId now : String) :
    ((es.map (fun e =>
        if e.id == memoryId then
          { e with lastAccessedAt := now, accessCount := e.accessCount + 1 }
        else e)).map (fun e => e.id)) = es.map (fun e => e.id) := by
  rw [List.map_map]
  apply List.map_congr_left
  intro e _
  simp only [Function.comp]
  split <;> rfl

theorem bumpReturned_eq_map (ms es : List MemoryEntry) (now : String)
    (hes : (es.map (fun e => e.id)).Nodup)
    (hms : (ms.map (fun m => m.id)).Nodup) :
    bumpReturned es ms now =
      es.map (fun e =>
        if ms.any (fun m => m.id == e.id) then
          { e with lastAccessedAt := now, accessCount := e.accessCount + 1 }
        else e) := by
  induction ms generalizing es with
  | nil =>
    simp only [bumpReturned, List.foldl_nil, List.any_nil, Bool.false_eq_true,
      if_false]
    exact (List.map_id es).symm
  | cons m ms ih =>
    simp only [List.map_cons, List.nodup_cons] at hms
    have hstep : bumpReturned es (m :: ms) now =
        bumpReturned (bumpFirstEntry es m.id now) ms now := rfl
    rw [hstep, bumpFirstEntry_eq_map es m.id now hes]
    have hes' : (((es.map (fun e =>
        if e.id == m.id then
          { e with lastAccessedAt := now, accessCount := e.accessCount + 1 }
        else e))).map (fun e => e.id)).Nodup := by
      rw [map_bump_ids]
      exact hes
    rw [ih _ hes' hms.2, List.map_map]
    apply List.map_congr_left
    intro e _
    simp only [Function.comp]
    by_cases he : (e.id == m.id) = true
    · have heid : e.id = m.id := by simpa using he
      have hnot : (ms.any (fun x => x.id == e.id)) = false := by
        rw [List.any_eq_false]
        intro x hx hcon
        have hxe : x.id = e.id := by simpa using hcon
        exact hms.1 (by
          rw [← heid, ← hxe]
          exact List.mem_map_of_mem (fun m => m.id) hx)
      have hm : (m.id == e.id) = true := by simp [heid]
      simp only [he, if_true, List.any_cons, hm, Bool.true_or, hnot,
        Bool.false_eq_true, if_false]
    · have he' : (e.id == m.id) = false := by simpa using he
      have hm : (m.id == e.id) = false := by
        have hne : e.id ≠ m.id := by simpa using he
        simp [Ne.symm hne]
      simp only [he', Bool.false_eq_true, if_false, List.any_cons, hm,
        Bool.false_or]

theorem retrieveMemories_run (st : MemoryStore) (bookId context : String)
    (options : RetrieveOptions) (now : String) (book : MemoryBook)
    (hload : loadMemoryBook st bookId = some book) :
    ∃ (sel : List MemoryEntry) (tr : Bool) (me : RetrievalMethod),
      retrieveMemories st bookId context options now =
        ({ memories := sel, totalMemories := book.entries.length,
           truncated := tr, method := me },
         saveMemoryBook st
           { book with entries := bumpReturned book.entries sel now } now)
      ∧ (∀ e ∈ sel, e ∈ book.entries.filter (fun x =>
          x.enabled && decide (options.minImportance.getD
            book.settings.minImportanceForInjection ≤ x.importance.getD 50)))
      ∧ ((book.entries.map (fun e => e.id)).Nodup →
          (sel.map (fun e => e.id)).Nodup) := by
  simp only [retrieveMemories, hload]
  by_cases hkw : (decide
      (0 < (options.keywords.getD (extractKeywords context)).length) &&
      book.settings.useKeywordRetrieval) = true
  · simp only [hkw, if_true]
    cases hsb : options.sortBy.getD book.settings.sortBy <;> simp only [hsb]
    all_goals
      refine ⟨_, _, _, rfl, ?_, ?_⟩
    all_goals
      first
      | (intro e he
         exact (List.mem_filter.1
           (mem_of_mem_take_mergeSort _ _ _ _ he)).1)
      | (intro h
         exact nodup_map_take_mergeSort _ _ _ _
           (nodup_map_filter _ _ _ (nodup_map_filter _ _ _ h)))
  · simp only [hkw, Bool.false_eq_true, if_false]
    cases hsb : options.sortBy.getD book.settings.sortBy <;> simp only [hsb]
    all_goals
      refine ⟨_, _, _, rfl, ?_, ?_⟩
    all_goals
      first
      | (intro e he
         exact mem_of_mem_take_mergeSort _ _ _ _ he)
      | (intro h
         exact nodup_map_take_mergeSort _ _ _ _ (nodup_map_filter _ _ _ h))

theorem retrieveMemories_returns_filtered (st : MemoryStore)
    (bookId context : String) (book : MemoryBook)
    (hload : loadMemoryBook st bookId = some book)
    (options : RetrieveOptions) (now : String) :
    ∀ e ∈ (retrieveMemories st bookId context options now).1.memories,
      e.enabled = true ∧
      options.minImportance.getD book.settings.minImportanceForInjection ≤
        e.importance.getD 50 := by
  intro e he
  obtain ⟨sel, tr, me, heq, hsub, -⟩ :=
    retrieveMemories_run st bookId context options now book hload
  rw [heq] at he
  have hp := (List.mem_filter.1 (hsub e he)).2
  rw [Bool.and_eq_true] at hp
  exact ⟨hp.1, by simpa using hp.2⟩

/-- Claim C2: on both retrieval paths — `retrieveMemories` (keyword) and
`retrieveMemoriesWithVector` (vector, including its fallback) — no
returned entry is disabled or has (defaulted) importance below the
effective `minImportance`, which is the caller's option defaulting to the
book's `minImportanceForInjection`, whatever the book contains. -/
theorem retrieval_never_returns_filtered_out (st : MemoryStore)
    (bookId context : String) (book : MemoryBook)
    (hload : loadMemoryBook st bookId = some book) :
    (∀ (options : RetrieveOptions) (now : String),
      ∀ e ∈ (retrieveMemories st bookId context options now).1.memories,
        e.enabled = true ∧
        options.minImportance.getD book.settings.minImportanceForInjection ≤
          e.importance.getD 50)
  ∧ (∀ (options : VectorRetrieveOptions) (available : Bool)
      (outcome : Except Unit (List VectorSearchResult)) (now : String),
      ∀ e ∈ (retrieveMemoriesWithVector st bookId context options available
          outcome now).1.memories,
        e.enabled = true ∧
        options.minImportance.getD book.settings.minImportanceForInjection ≤
          e.importance.getD 50) := by
  refine ⟨retrieveMemories_returns_filtered st bookId context book hload, ?_⟩
  intro options available outcome now e he
  simp only [retrieveMemoriesWithVector, hload] at he
  cases available with
  | false =>
    simp only [Bool.false_eq_true, if_false] at he
    have := retrieveMemories_returns_filtered st bookId context book hload
      { maxMemories := some (options.maxMemories.getD book.settings.maxMemoriesPerRequest)
      , minImportance := some (options.minImportance.getD book.settings.minImportanceForInjection)
      , keywords := none, sortBy := none } now e he
    simpa using this
  | true =>
    simp only [if_true] at he
    cases outcome with
    | error err =>
      simp only [] at he
      have := retrieveMemories_returns_filtered st bookId context book hload
        { maxMemories := some (options.maxMemories.getD book.settings.maxMemoriesPerRequest)
        , minImportance := some (options.minImportance.getD book.settings.minImportanceForInjection)
        , keywords := none, sortBy := none } now e he
      simpa using this
    | ok results =>
      simp only [List.mem_map] at he
      obtain ⟨r, hr, hre⟩ := he
      have hrf := List.mem_of_mem_take hr
      have hp := (List.mem_filter.1 hrf).2
      rw [Bool.and_eq_true] at hp
      rw [← hre]
      exact ⟨hp.1, by simpa using hp.2⟩

theorem retrieveMemories_bookkeeping (st : MemoryStore)
    (bookId context : String) (book : MemoryBook)
    (hload : loadMemoryBook st bookId = some book)
    (hnd : (book.entries.map (fun e => e.id)).Nodup)
    (options : RetrieveOptions) (now : String) :
    loadMemoryBook (retrieveMemories st bookId context options now).2 bookId =
      some { book with updatedAt := now, entries := book.entries.map (fun e =>
        if (retrieveMemories st bookId context options now).1.memories.any
            (fun m => m.id == e.id) then
          { e with lastAccessedAt := now, accessCount := e.accessCount + 1 }
        else e) }
    ∧ ∀ m ∈ (retrieveMemories st bookId context options now).1.memories,
        m ∈ book.entries := by
  obtain ⟨sel, tr, me, heq, hsub, hselnd⟩ :=
    retrieveMemories_run st bookId context options now book hload
  have hid : book.id = bookId := loadMemoryBook_eq_some_id hload
  rw [heq]
  simp only []
  constructor
  · rw [← bumpReturned_eq_map sel book.entries now hnd (hselnd hnd), ← hid]
    exact loadMemoryBook_saveMemoryBook st
      { book with entries := bumpReturned book.entries sel now } now
  · intro m hm
    exact (List.mem_filter.1 (hsub m hm)).1

/-- Claim C3: after either retrieval call, the canonical book file holds
exactly the original entries with every returned id bumped once —
`lastAccessedAt := now`, `accessCount` increased by exactly 1 — and all
other entries unchanged; on the keyword path every returned memory is one
of the book's entries.  (The book's entry ids are assumed unique, the data
model invariant; on the vector path the index-supplied result ids are
likewise assumed unique.) -/
theorem retrieval_access_bookkeeping (st : MemoryStore)
    (bookId context : String) (book : MemoryBook)
    (hload : loadMemoryBook st bookId = some book)
    (hnd : (book.entries.map (fun e => e.id)).Nodup) :
    (∀ (options : RetrieveOptions) (now : String),
      loadMemoryBook (retrieveMemories st bookId context options now).2 bookId =
        some { book with updatedAt := now, entries := book.entries.map (fun e =>
          if (retrieveMemories st bookId context options now).1.memories.any
              (fun m => m.id == e.id) then
            { e with lastAccessedAt := now, accessCount := e.accessCount + 1 }
          else e) }
      ∧ ∀ m ∈ (retrieveMemories st bookId context options now).1.memories,
          m ∈ book.entries)
  ∧ (∀ (options : VectorRetrieveOptions) (available : Bool)
      (outcome : Except Unit (List VectorSearchResult)) (now : String),
      (∀ results, outcome = Except.ok results →
        (results.map (fun r => r.entry.id)).Nodup) →
      loadMemoryBook
          (retrieveMemoriesWithVector st bookId context options available
            outcome now).2 bookId =
        some { book with updatedAt := now, entries := book.entries.map (fun e =>
          if (retrieveMemoriesWithVector st bookId context options available
              outcome now).1.memories.any (fun m => m.id == e.id) then
            { e with lastAccessedAt := now, accessCount := e.accessCount + 1 }
          else e) }) := by
  refine ⟨fun options now =>
    retrieveMemories_bookkeeping st bookId context book hload hnd options now, ?_⟩
  intro options available outcome now houtcome
  have hid : book.id = bookId := loadMemoryBook_eq_some_id hload
  simp only [retrieveMemoriesWithVector, hload]
  cases available with
  | false =>
    simp only [Bool.false_eq_true, if_false]
    exact (retrieveMemories_bookkeeping st bookId context book hload hnd
      _ now).1
  | true =>
    simp only [if_true]
    cases outcome with
    | error err =>
      simp only []
      exact (retrieveMemories_bookkeeping st bookId context book hload hnd
        _ now).1
    | ok results =>
      simp only []
      have hresnd : (results.map (fun r => r.entry.id)).Nodup :=
        houtcome results rfl
      set mems := ((results.filter (fun r => r.entry.enabled &&
        decide (options.minImportance.getD
          book.settings.minImportanceForInjection ≤
          r.entry.importance.getD 50))).take
        (options.maxMemories.getD book.settings.maxMemoriesPerRequest)).map
        (fun r => r.entry) with hmems
      have hmsnd : (mems.map (fun m => m.id)).Nodup := by
        rw [hmems, List.map_map]
        exact ((List.take_sublist _ _).map _).nodup
          (((List.filter_sublist _).map _).nodup hresnd)
      rw [← bumpReturned_eq_map mems book.entries now hnd hmsnd, ← hid]
      exact loadMemoryBook_saveMemoryBook st
        { book with entries := bumpReturned book.entries mems now } now

/-- A concrete one-entry book used by the retrieval witnesses. -/
def retrievalProbeBook : MemoryBook :=
  { id := "rb"
  , name := "RB"
  , characterId := none
  , sessionKey := none
  , createdAt := "t0"
  , updatedAt := "t0"
  , entries :=
      [{ id := "e1", content := "User likes coffee", createdAt := "t0"
       , lastAccessedAt := "t0", accessCount := 0, type := .manual
       , keywords := none, importance := some 80, category := none
       , source := none, enabled := true }]
  , settings := DEFAULT_BOOK_SETTINGS }

/-- Witness for C2: the filter property instantiated on a concrete store,
with the lookup hypothesis discharged by evaluation. -/
theorem retrieval_never_returns_filtered_out_witness :
    loadMemoryBook [retrievalProbeBook] "rb" = some retrievalProbeBook ∧
    (∀ e ∈ (retrieveMemories [retrievalProbeBook] "rb" "what does the user drink"
        ⟨none, none, none, none⟩ "t1").1.memories,
      e.enabled = true ∧
      (⟨none, none, none, none⟩ : RetrieveOptions).minImportance.getD
          retrievalProbeBook.settings.minImportanceForInjection ≤
        e.importance.getD 50) :=
  ⟨rfl,
   (retrieval_never_returns_filtered_out [retrievalProbeBook] "rb"
     "what does the user drink" retrievalProbeBook rfl).1
     ⟨none, none, none, none⟩ "t1"⟩

/-- Witness for C3: the bookkeeping property instantiated on a concrete
store, with the lookup and id-uniqueness hypotheses discharged by
evaluation. -/
theorem retrieval_access_bookkeeping_witness :
    (loadMemoryBook [retrievalProbeBook] "rb" = some retrievalProbeBook ∧
     (retrievalProbeBook.entries.map (fun e => e.id)).Nodup) ∧
    (loadMemoryBook
        (retrieveMemories [retrievalProbeBook] "rb" "ctx"
          ⟨none, none, none, none⟩ "t1").2 "rb" =
      some { retrievalProbeBook with
        updatedAt := "t1"
        entries := retrievalProbeBook.entries.map (fun e =>
          if (retrieveMemories [retrievalProbeBook] "rb" "ctx"
              ⟨none, none, none, none⟩ "t1").1.memories.any
              (fun m => m.id == e.id) then
            { e with lastAccessedAt := "t1", accessCount := e.accessCount + 1 }
          else e) }
     ∧ ∀ m ∈ (retrieveMemories [retrievalProbeBook] "rb" "ctx"
          ⟨none, none, none, none⟩ "t1").1.memories,
         m ∈ retrievalProbeBook.entries) :=
  ⟨⟨rfl, by decide⟩,
   (retrieval_access_bookkeeping [retrievalProbeBook] "rb" "ctx"
     retrievalProbeBook rfl (by decide)).1 ⟨none, none, none, none⟩ "t1"⟩

theorem indexEntry_db_entries (ix : MemoryVectorIndex) (entry : MemoryEntry)
    (embedding : List ℝ) (model now : String) :
    (indexEntry ix entry embedding model now).db.entries =
      upsertEntryRow ix.db.entries (entryToRow entry) := by
  unfold indexEntry
  simp only []
  split <;> rfl

theorem indexEntry_db_vectors (ix : MemoryVectorIndex) (entry : MemoryEntry)
    (embedding : List ℝ) (model now : String) :
    (indexEntry ix entry embedding model now).db.vectors =
      upsertVectorRow ix.db.vectors ⟨entry.id, embedding, model, now⟩ := by
  unfold indexEntry
  simp only []
  split <;> rfl

theorem any_id_upsertEntryRow_self (rows : List EntryRow) (row : EntryRow) :
    ((upsertEntryRow rows row).any (fun r => r.id == row.id)) = true := by
  unfold upsertEntryRow
  split
  · rename_i hany
    rw [List.any_eq_true] at hany ⊢
    obtain ⟨b, hb, hbid⟩ := hany
    exact ⟨{ row with created_at := b.created_at },
      List.mem_map.2 ⟨b, hb, by rw [if_pos hbid]⟩, by simp⟩
  · rw [List.any_append]
    simp

theorem any_id_upsertEntryRow_mono (rows : List EntryRow) (row : EntryRow)
    (x : String) (h : rows.any (fun r => r.id == x) = true) :
    ((upsertEntryRow rows row).any (fun r => r.id == x)) = true := by
  unfold upsertEntryRow
  split
  · rw [List.any_eq_true] at h ⊢
    obtain ⟨b, hb, hbid⟩ := h
    by_cases hb2 : (b.id == row.id) = true
    · refine ⟨{ row with created_at := b.created_at },
        List.mem_map.2 ⟨b, hb, by rw [if_pos hb2]⟩, ?_⟩
      have h1 : b.id = x := by simpa using hbid
      have h2 : b.id = row.id := by simpa using hb2
      simp [← h2, h1]
    · refine ⟨b, List.mem_map.2 ⟨b, hb, ?_⟩, hbid⟩
      rw [if_neg hb2]
  · rw [List.any_append, h]
    simp

theorem any_id_upsertVectorRow_self (rows : List VectorRow) (row : VectorRow) :
    ((upsertVectorRow rows row).any (fun r => r.entry_id == row.entry_id)) = true := by
  unfold upsertVectorRow
  split
  · rename_i hany
    rw [List.any_eq_true] at hany ⊢
    obtain ⟨b, hb, hbid⟩ := hany
    exact ⟨row, List.mem_map.2 ⟨b, hb, by rw [if_pos hbid]⟩, by simp⟩
  · rw [List.any_append]
    simp

theorem any_id_upsertVectorRow_mono (rows : List VectorRow) (row : VectorRow)
    (x : String) (h : rows.any (fun r => r.entry_id == x) = true) :
    ((upsertVectorRow rows row).any (fun r => r.entry_id == x)) = true := by
  unfold upsertVectorRow
  split
  · rw [List.any_eq_true] at h ⊢
    obtain ⟨b, hb, hbid⟩ := h
    by_cases hb2 : (b.entry_id == row.entry_id) = true
    · refine ⟨row, List.mem_map.2 ⟨b, hb, by rw [if_pos hb2]⟩, ?_⟩
      have h1 : b.entry_id = x := by simpa using hbid
      have h2 : b.entry_id = row.entry_id := by simpa using hb2
      simp [← h2, h1]
    · refine ⟨b, List.mem_map.2 ⟨b, hb, ?_⟩, hbid⟩
      rw [if_neg hb2]
  · rw [List.any_append, h]
    simp

theorem indexEntry_present (ix : MemoryVectorIndex) (entry : MemoryEntry)
    (embedding : List ℝ) (model now : String) :
    ((indexEntry ix entry embedding model now).db.entries.any
      (fun r => r.id == entry.id)) = true ∧
    ((indexEntry ix entry embedding model now).db.vectors.any
      (fun r => r.entry_id == entry.id)) = true := by
  rw [indexEntry_db_entries, indexEntry_db_vectors]
  exact ⟨any_id_upsertEntryRow_self _ _, any_id_upsertVectorRow_self _ _⟩

theorem indexEntry_preserves (ix : MemoryVectorIndex) (entry : MemoryEntry)
    (embedding : List ℝ) (model now : String) (x : String)
    (he : (ix.db.entries.any (fun r => r.id == x)) = true)
    (hv : (ix.db.vectors.any (fun r => r.entry_id == x)) = true) :
    ((indexEntry ix entry embedding model now).db.entries.any
      (fun r => r.id == x)) = true ∧
    ((indexEntry ix entry embedding model now).db.vectors.any
      (fun r => r.entry_id == x)) = true := by
  rw [indexEntry_db_entries, indexEntry_db_vectors]
  exact ⟨any_id_upsertEntryRow_mono _ _ _ he, any_id_upsertVectorRow_mono _ _ _ hv⟩

theorem foldl_indexEntry_preserves (model now x : String) (items : List BatchItem) :
    ∀ cur : MemoryVectorIndex,
    (cur.db.entries.any (fun r => r.id == x)) = true →
    (cur.db.vectors.any (fun r => r.entry_id == x)) = true →
    (((items.foldl (fun c it => indexEntry c it.entry it.embedding model now)
        cur).db.entries.any (fun r => r.id == x)) = true ∧
     ((items.foldl (fun c it => indexEntry c it.entry it.embedding model now)
        cur).db.vectors.any (fun r => r.entry_id == x)) = true) := by
  induction items with
  | nil => intro cur he hv; exact ⟨he, hv⟩
  | cons it rest ih =>
    intro cur he hv
    rw [List.foldl_cons]
    obtain ⟨he', hv'⟩ := indexEntry_preserves cur it.entry it.embedding model now x he hv
    exact ih _ he' hv'

theorem foldl_indexEntry_present (model now : String) (items : List BatchItem) :
    ∀ (cur : MemoryVectorIndex) (it : BatchItem), it ∈ items →
    (((items.foldl (fun c i => indexEntry c i.entry i.embedding model now)
        cur).db.entries.any (fun r => r.id == it.entry.id)) = true ∧
     ((items.foldl (fun c i => indexEntry c i.entry i.embedding model now)
        cur).db.vectors.any (fun r => r.entry_id == it.entry.id)) = true) := by
  induction items with
  | nil => intro cur it hmem; simp at hmem
  | cons i rest ih =>
    intro cur it hmem
    rw [List.foldl_cons]
    rcases List.mem_cons.1 hmem with heq | hmem'
    · subst heq
      obtain ⟨he, hv⟩ := indexEntry_present cur it.entry it.embedding model now
      exact foldl_indexEntry_preserves model now it.entry.id rest _ he hv
    · exact ih _ it hmem'

theorem indexBatchGo_fail (fails : BatchItem → Bool) (model now : String)
    (snapshot : IndexDB) (items : List BatchItem) :
    ∀ cur : MemoryVectorIndex, (∃ it ∈ items, fails it = true) →
    (indexBatchGo fails model now snapshot cur items).2.db = snapshot ∧
    ∃ e, (indexBatchGo fails model now snapshot cur items).1 = Except.error e := by
  induction items with
  | nil => intro cur h; simp at h
  | cons it rest ih =>
    intro cur h
    by_cases hf : fails it = true
    · refine ⟨?_, "index write failed", ?_⟩ <;> simp [indexBatchGo, hf]
    · have hf' : fails it = false := by simpa using hf
      simp only [indexBatchGo, hf', Bool.false_eq_true, if_false]
      apply ih
      obtain ⟨it', hmem, hit⟩ := h
      rcases List.mem_cons.1 hmem with heq | hmem'
      · exact absurd (heq ▸ hit) (by simp [hf'])
      · exact ⟨it', hmem', hit⟩

theorem indexBatchGo_ok (fails : BatchItem → Bool) (model now : String)
    (snapshot : IndexDB) (items : List BatchItem) :
    ∀ cur : MemoryVectorIndex, (∀ it ∈ items, fails it = false) →
    (indexBatchGo fails model now snapshot cur items).1 = Except.ok () ∧
    (indexBatchGo fails model now snapshot cur items).2 =
      items.foldl (fun c it => indexEntry c it.entry it.embedding model now) cur := by
  induction items with
  | nil => intro cur _; exact ⟨rfl, rfl⟩
  | cons it rest ih =>
    intro cur h
    have hf : fails it = false := h it (List.mem_cons_self _ _)
    simp only [indexBatchGo, hf, Bool.false_eq_true, if_false, List.foldl_cons]
    exact ih _ (fun x hx => h x (List.mem_cons_of_mem _ hx))

/-- Claim C6: `indexBatch` is atomic.  If indexing any element of the
batch fails, the error propagates to the caller and the database —
`entries` table, `vectors` table, and with them the keyword projection,
which is an external-content view of `entries` — equals its pre-batch
state; if no element fails the call succeeds and every batch element is
visible in both tables.  Low-level SQLite write failures are events
outside the pure model and enter as the `fails` predicate on batch
items. -/
theorem indexBatch_atomicity (fails : BatchItem → Bool)
    (ix : MemoryVectorIndex) (items : List BatchItem) (model now : String) :
    ((∃ it ∈ items, fails it = true) →
      (indexBatch fails ix items model now).2.db = ix.db ∧
      ∃ e, (indexBatch fails ix items model now).1 = Except.error e)
  ∧ ((∀ it ∈ items, fails it = false) →
      (indexBatch fails ix items model now).1 = Except.ok () ∧
      ∀ it ∈ items,
        ((indexBatch fails ix items model now).2.db.entries.any
          (fun r => r.id == it.entry.id)) = true ∧
        ((indexBatch fails ix items model now).2.db.vectors.any
          (fun r => r.entry_id == it.entry.id)) = true) := by
  constructor
  · intro h
    exact indexBatchGo_fail fails model now ix.db items ix h
  · intro h
    obtain ⟨h1, h2⟩ := indexBatchGo_ok fails model now ix.db items ix h
    refine ⟨h1, ?_⟩
    intro it hmem
    rw [indexBatch, h2]
    exact foldl_indexEntry_present model now items ix it hmem

/-- A minimal entry for the batch-atomicity witness. -/
def batchProbeEntry (i : String) : MemoryEntry :=
  { id := i, content := "c", createdAt := "t0", lastAccessedAt := "t0"
  , accessCount := 0, type := .manual, keywords := none, importance := some 50
  , category := none, source := none, enabled := true }

/-- A five-element batch. -/
def batchProbeItems : List BatchItem :=
  [⟨batchProbeEntry "e1", []⟩, ⟨batchProbeEntry "e2", []⟩,
   ⟨batchProbeEntry "e3", []⟩, ⟨batchProbeEntry "e4", []⟩,
   ⟨batchProbeEntry "e5", []⟩]

/-- An empty index. -/
def batchProbeIndex : MemoryVectorIndex := ⟨⟨[], [], []⟩, none⟩

/-- The write of entry 3 fails. -/
def batchFailsThird (it : BatchItem) : Bool := it.entry.id == "e3"

/-- Witness for C6: a 5-entry batch whose third write fails leaves the
database in its pre-batch (empty) state, and the same batch with no
failure commits successfully. -/
theorem indexBatch_atomicity_witness :
    ((∃ it ∈ batchProbeItems, batchFailsThird it = true) ∧
      (indexBatch batchFailsThird batchProbeIndex batchProbeItems
        "m" "t").2.db = batchProbeIndex.db)
  ∧ ((∀ it ∈ batchProbeItems, (fun _ : BatchItem => false) it = false) ∧
      (indexBatch (fun _ : BatchItem => false) batchProbeIndex batchProbeItems
        "m" "t").1 = Except.ok ()) :=
  ⟨⟨⟨⟨batchProbeEntry "e3", []⟩,
      List.mem_cons_of_mem _ (List.mem_cons_of_mem _ (List.mem_cons_self _ _)),
      rfl⟩,
    ((indexBatch_atomicity batchFailsThird batchProbeIndex batchProbeItems
      "m" "t").1
      ⟨⟨batchProbeEntry "e3", []⟩,
       List.mem_cons_of_mem _ (List.mem_cons_of_mem _ (List.mem_cons_self _ _)),
       rfl⟩).1⟩,
   ⟨fun _ _ => rfl,
    ((indexBatch_atomicity (fun _ : BatchItem => false) batchProbeIndex
      batchProbeItems "m" "t").2 (fun _ _ => rfl)).1⟩⟩

section AutoExtractLemmas

variable (available : Bool)
variable (search : String → Except Unit (List VectorSearchResult))
variable (threshold : ℚ) (bookId now : String) (gen : Nat → String)

theorem addMemory_some_fields {st : MemoryStore} {bookId : String}
    {params : AddMemoryParams} {now freshId : String} {e : MemoryEntry}
    (h : (addMemory st bookId params now freshId).1 = some e) :
    e.content = params.content ∧
    e.importance = some (params.importance.getD 50) := by
  unfold addMemory at h
  cases hl : loadMemoryBook st bookId with
  | none => rw [hl] at h; simp at h
  | some b =>
    rw [hl] at h
    simp only [Option.some.injEq] at h
    rw [← h]
    exact ⟨rfl, rfl⟩

theorem autoExtractStep_saved_mono (acc : AutoExtractState) (m : ExtractedMemory) :
    ∀ e ∈ acc.saved,
      e ∈ (autoExtractStep available search threshold bookId now gen acc m).saved := by
  intro e he
  unfold autoExtractStep
  split
  · exact he
  · cases hadd : (addMemoryWithVector acc.store bookId
        { content := m.content, type := none, keywords := some m.keywords
        , importance := some m.importance, category := some m.category
        , source := none } now (gen acc.nextId)).1 with
    | some entry =>
      simp only [hadd]
      exact List.mem_append_left _ he
    | none =>
      simp only [hadd]
      exact he

theorem autoExtractStep_dups_mono (acc : AutoExtractState) (m : ExtractedMemory) :
    ∀ d ∈ acc.duplicates,
      d ∈ (autoExtractStep available search threshold bookId now gen acc m).duplicates := by
  intro d hd
  unfold autoExtractStep
  split
  · exact List.mem_append_left _ hd
  · cases hadd : (addMemoryWithVector acc.store bookId
        { content := m.content, type := none, keywords := some m.keywords
        , importance := some m.importance, category := some m.category
        , source := none } now (gen acc.nextId)).1 with
    | some entry =>
      simp only [hadd]
      exact hd
    | none =>
      simp only [hadd]
      exact hd

theorem foldl_autoExtractStep_saved_mono (l : List ExtractedMemory) :
    ∀ acc : AutoExtractState, ∀ e ∈ acc.saved,
      e ∈ (l.foldl (autoExtractStep available search threshold bookId now gen) acc).saved := by
  induction l with
  | nil => intro acc e he; exact he
  | cons m rest ih =>
    intro acc e he
    rw [List.foldl_cons]
    exact ih _ e (autoExtractStep_saved_mono available search threshold bookId now gen acc m e he)

theorem foldl_autoExtractStep_dups_mono (l : List ExtractedMemory) :
    ∀ acc : AutoExtractState, ∀ d ∈ acc.duplicates,
      d ∈ (l.foldl (autoExtractStep available search threshold bookId now gen) acc).duplicates := by
  induction l with
  | nil => intro acc d hd; exact hd
  | cons m rest ih =>
    intro acc d hd
    rw [List.foldl_cons]
    exact ih _ d (autoExtractStep_dups_mono available search threshold bookId now gen acc m d hd)

theorem autoExtractStep_store_some (acc : AutoExtractState) (m : ExtractedMemory)
    (h : ∃ b, loadMemoryBook acc.store bookId = some b) :
    ∃ b, loadMemoryBook
      (autoExtractStep available search threshold bookId now gen acc m).store bookId = some b := by
  obtain ⟨b, hb⟩ := h
  have hbid : b.id = bookId := loadMemoryBook_eq_some_id hb
  unfold autoExtractStep
  split
  · exact ⟨b, hb⟩
  · simp only [addMemoryWithVector, addMemory, hb]
    rw [← hbid]
    exact ⟨_, loadMemoryBook_saveMemoryBook acc.store _ now⟩

theorem autoExtractStep_dup_recorded (acc : AutoExtractState) (m : ExtractedMemory)
    (h : isDuplicateMemory available search m.content threshold = true) :
    m ∈ (autoExtractStep available search threshold bookId now gen acc m).duplicates := by
  unfold autoExtractStep
  rw [if_pos h]
  simp

theorem autoExtractStep_saved_cases (acc : AutoExtractState) (m : ExtractedMemory)
    (e : MemoryEntry)
    (he : e ∈ (autoExtractStep available search threshold bookId now gen acc m).saved) :
    e ∈ acc.saved ∨
      (isDuplicateMemory available search m.content threshold = false ∧
       e.content = m.content ∧ e.importance = some m.importance) := by
  unfold autoExtractStep at he
  by_cases hd : isDuplicateMemory available search m.content threshold = true
  · rw [if_pos hd] at he
    exact Or.inl he
  · have hd' : isDuplicateMemory available search m.content threshold = false := by
      simpa using hd
    rw [if_neg hd] at he
    cases hadd : (addMemoryWithVector acc.store bookId
        { content := m.content, type := none, keywords := some m.keywords
        , importance := some m.importance, category := some m.category
        , source := none } now (gen acc.nextId)).1 with
    | none =>
      simp only [hadd] at he
      exact Or.inl he
    | some entry =>
      simp only [hadd] at he
      simp only [List.mem_append, List.mem_singleton] at he
      rcases he with he | he
      · exact Or.inl he
      · obtain ⟨hc, hi⟩ := addMemory_some_fields (e := entry) hadd
        subst he
        exact Or.inr ⟨hd', hc, by simpa using hi⟩

theorem foldl_saved_from_candidates (l : List ExtractedMemory) :
    ∀ (acc : AutoExtractState) (e : MemoryEntry),
      e ∈ (l.foldl (autoExtractStep available search threshold bookId now gen) acc).saved →
      e ∈ acc.saved ∨
        ∃ m ∈ l, isDuplicateMemory available search m.content threshold = false ∧
          e.content = m.content ∧ e.importance = some m.importance := by
  induction l with
  | nil => intro acc e he; exact Or.inl he
  | cons m rest ih =>
    intro acc e he
    rw [List.foldl_cons] at he
    rcases ih _ e he with hstep | ⟨m', hm', hrest⟩
    · rcases autoExtractStep_saved_cases available search threshold bookId now gen
        acc m e hstep with hacc | hnew
      · exact Or.inl hacc
      · exact Or.inr ⟨m, List.mem_cons_self _ _, hnew⟩
    · exact Or.inr ⟨m', List.mem_cons_of_mem _ hm', hrest⟩

theorem autoExtractStep_commits (acc : AutoExtractState) (m : ExtractedMemory)
    (hd : isDuplicateMemory available search m.content threshold = false)
    (hst : ∃ b, loadMemoryBook acc.store bookId = some b) :
    ∃ e ∈ (autoExtractStep available search threshold bookId now gen acc m).saved,
      e.content = m.content ∧ e.importance = some m.importance := by
  obtain ⟨b, hb⟩ := hst
  unfold autoExtractStep
  rw [if_neg (by simp [hd])]
  simp only [addMemoryWithVector, addMemory, hb]
  refine ⟨_, List.mem_append_right _ (List.mem_cons_self _ _), rfl, rfl⟩

theorem foldl_commits (l : List ExtractedMemory) :
    ∀ (acc : AutoExtractState) (m : ExtractedMemory), m ∈ l →
      isDuplicateMemory available search m.content threshold = false →
      (∃ b, loadMemoryBook acc.store bookId = some b) →
      ∃ e ∈ (l.foldl (autoExtractStep available search threshold bookId now gen) acc).saved,
        e.content = m.content ∧ e.importance = some m.importance := by
  induction l with
  | nil => intro acc m hm; simp at hm
  | cons m' rest ih =>
    intro acc m hm hd hst
    rw [List.foldl_cons]
    rcases List.mem_cons.1 hm with heq | hm'
    · subst heq
      obtain ⟨e, he, hprops⟩ :=
        autoExtractStep_commits available search threshold bookId now gen acc m hd hst
      exact ⟨e, foldl_autoExtractStep_saved_mono available search threshold bookId
        now gen rest _ e he, hprops⟩
    · exact ih _ m hm' hd
        (autoExtractStep_store_some available search threshold bookId now gen acc m' hst)

theorem foldl_dup_recorded (l : List ExtractedMemory) :
    ∀ (acc : AutoExtractState) (m : ExtractedMemory), m ∈ l →
      isDuplicateMemory available search m.content threshold = true →
      m ∈ (l.foldl (autoExtractStep available search threshold bookId now gen) acc).duplicates := by
  induction l with
  | nil => intro acc m hm; simp at hm
  | cons m' rest ih =>
    intro acc m hm hd
    rw [List.foldl_cons]
    rcases List.mem_cons.1 hm with heq | hm'
    · subst heq
      exact foldl_autoExtractStep_dups_mono available search threshold bookId now
        gen rest _ m
        (autoExtractStep_dup_recorded available search threshold bookId now gen acc m hd)
    · exact ih _ m hm' hd

end AutoExtractLemmas

theorem lookupByCharacterParam_mem {st : MemoryStore} {cidp : Option String}
    {e : MemoryBook} (h : lookupByCharacterParam st cidp = some e) : e ∈ st := by
  cases cidp with
  | none => simp [lookupByCharacterParam] at h
  | some cid =>
    simp only [lookupByCharacterParam] at h
    by_cases hc : cid = ""
    · rw [if_pos hc] at h; simp at h
    · rw [if_neg hc] at h; exact List.mem_of_find?_eq_some h

theorem lookupBySessionParam_mem {st : MemoryStore} {skp : Option String}
    {e : MemoryBook} (h : lookupBySessionParam st skp = some e) : e ∈ st := by
  cases skp with
  | none => simp [lookupBySessionParam] at h
  | some sk =>
    simp only [lookupBySessionParam] at h
    by_cases hs : sk = ""
    · rw [if_pos hs] at h; simp at h
    · rw [if_neg hs] at h; exact List.mem_of_find?_eq_some h

theorem getOrCreateMemoryBook_store_some (st : MemoryStore)
    (params : GetOrCreateParams) (now freshId : String) :
    ∃ b, loadMemoryBook (getOrCreateMemoryBook st params now freshId).2
      (getOrCreateMemoryBook st params now freshId).1.id = some b := by
  cases hbc : lookupByCharacterParam st params.characterId with
  | some e =>
    rw [getOrCreateMemoryBook_char_case st params now freshId e hbc]
    exact loadMemoryBook_isSome_of_mem (lookupByCharacterParam_mem hbc)
  | none =>
    cases hbs : lookupBySessionParam st params.sessionKey with
    | some e =>
      rw [getOrCreateMemoryBook_session_case st params now freshId e hbc hbs]
      exact loadMemoryBook_isSome_of_mem (lookupBySessionParam_mem hbs)
    | none =>
      rw [getOrCreateMemoryBook_create_case st params now freshId hbc hbs]
      exact ⟨_, loadMemoryBook_saveMemoryBook st (freshMemoryBook params now freshId) now⟩

/-- Claim C9: a candidate whose similarity search reports a match at or
above the threshold (default 0.85) is recorded as a duplicate and never
stored — no committed entry's content is a detected duplicate — while a
candidate checked with no vector backend available, or whose similarity
search throws, skips deduplication and is committed. -/
theorem autoExtractMemories_dedup (st : MemoryStore) (available : Bool)
    (search : String → Except Unit (List VectorSearchResult))
    (parsedResponse : List RawExtractedMemory) (context : ExtractionContext)
    (deduplicateThreshold : Option ℚ) (now freshBookId : String)
    (gen : Nat → String) :
    (∀ e ∈ (autoExtractMemories st available search parsedResponse context
        deduplicateThreshold now freshBookId gen).1.saved,
      isDuplicateMemory available search e.content
        (deduplicateThreshold.getD (85 / 100)) = false)
  ∧ (∀ m ∈ (autoExtractMemories st available search parsedResponse context
        deduplicateThreshold now freshBookId gen).1.extracted,
      (available = true →
        ∀ rs, search m.content = Except.ok rs →
        (∃ r ∈ rs, deduplicateThreshold.getD (85 / 100) ≤ r.score) →
        m ∈ (autoExtractMemories st available search parsedResponse context
          deduplicateThreshold now freshBookId gen).1.duplicates ∧
        ∀ e ∈ (autoExtractMemories st available search parsedResponse context
          deduplicateThreshold now freshBookId gen).1.saved,
          e.content ≠ m.content)
      ∧ ((available = false ∨ search m.content = Except.error ()) →
        ∃ e ∈ (autoExtractMemories st available search parsedResponse context
          deduplicateThreshold now freshBookId gen).1.saved,
          e.content = m.content)) := by
  cases hemp : (parseExtractionResponse parsedResponse).isEmpty
  case true =>
    have hnil : parseExtractionResponse parsedResponse = [] :=
      List.isEmpty_iff.1 hemp
    constructor
    · intro e he
      simp only [autoExtractMemories, hemp, if_true] at he
      simp at he
    · intro m hm
      simp only [autoExtractMemories, hemp, if_true] at hm
      rw [hnil] at hm
      simp at hm
  case false =>
    have heq : autoExtractMemories st available search parsedResponse context
        deduplicateThreshold now freshBookId gen =
        ({ extracted := parseExtractionResponse parsedResponse
         , saved := ((parseExtractionResponse parsedResponse).foldl
             (autoExtractStep available search
               (deduplicateThreshold.getD (85 / 100))
               (getOrCreateMemoryBook st
                 ⟨context.characterName, none, context.sessionKey⟩
                 now freshBookId).1.id now gen)
             ⟨(getOrCreateMemoryBook st
                 ⟨context.characterName, none, context.sessionKey⟩
                 now freshBookId).2, [], [], 0⟩).saved
         , duplicates := ((parseExtractionResponse parsedResponse).foldl
             (autoExtractStep available search
               (deduplicateThreshold.getD (85 / 100))
               (getOrCreateMemoryBook st
                 ⟨context.characterName, none, context.sessionKey⟩
                 now freshBookId).1.id now gen)
             ⟨(getOrCreateMemoryBook st
                 ⟨context.characterName, none, context.sessionKey⟩
                 now freshBookId).2, [], [], 0⟩).duplicates },
         ((parseExtractionResponse parsedResponse).foldl
             (autoExtractStep available search
               (deduplicateThreshold.getD (85 / 100))
               (getOrCreateMemoryBook st
                 ⟨context.characterName, none, context.sessionKey⟩
                 now freshBookId).1.id now gen)
             ⟨(getOrCreateMemoryBook st
                 ⟨context.characterName, none, context.sessionKey⟩
                 now freshBookId).2, [], [], 0⟩).store) := by
      simp only [autoExtractMemories, hemp, Bool.false_eq_true, if_false]
    have hsavedA : ∀ e ∈ (autoExtractMemories st available search parsedResponse
        context deduplicateThreshold now freshBookId gen).1.saved,
        isDuplicateMemory available search e.content
          (deduplicateThreshold.getD (85 / 100)) = false := by
      intro e he
      rw [heq] at he
      rcases foldl_saved_from_candidates available search
        (deduplicateThreshold.getD (85 / 100)) _ now gen
        (parseExtractionResponse parsedResponse) _ e he with habs | ⟨m, _, hdm, hc, _⟩
      · simp at habs
      · rw [hc]
        exact hdm
    refine ⟨hsavedA, ?_⟩
    intro m hm
    have hmext : m ∈ parseExtractionResponse parsedResponse := by
      rw [heq] at hm
      exact hm
    constructor
    · intro havail rs hok hexists
      have hdup : isDuplicateMemory available search m.content
          (deduplicateThreshold.getD (85 / 100)) = true := by
        obtain ⟨r, hr, hscore⟩ := hexists
        simp only [isDuplicateMemory, havail, Bool.not_true, Bool.false_eq_true,
          if_false, hok]
        exact List.any_eq_true.2 ⟨r, hr, decide_eq_true hscore⟩
      constructor
      · rw [heq]
        exact foldl_dup_recorded available search
          (deduplicateThreshold.getD (85 / 100)) _ now gen
          (parseExtractionResponse parsedResponse) _ m hmext hdup
      · intro e he hcon
        have := hsavedA e he
        rw [hcon] at this
        rw [this] at hdup
        exact Bool.false_ne_true hdup
    · intro hskip
      have hdup : isDuplicateMemory available search m.content
          (deduplicateThreshold.getD (85 / 100)) = false := by
        rcases hskip with hfalse | herr
        · simp [isDuplicateMemory, hfalse]
        · cases available <;> simp [isDuplicateMemory, herr]
      rw [heq]
      obtain ⟨e, he, hc, _⟩ := foldl_commits available search
        (deduplicateThreshold.getD (85 / 100))
        (getOrCreateMemoryBook st
          ⟨context.characterName, none, context.sessionKey⟩
          now freshBookId).1.id now gen
        (parseExtractionResponse parsedResponse)
        ⟨(getOrCreateMemoryBook st
            ⟨context.characterName, none, context.sessionKey⟩
            now freshBookId).2, [], [], 0⟩ m hmext hdup
        (getOrCreateMemoryBook_store_some st
          ⟨context.characterName, none, context.sessionKey⟩ now freshBookId)
      exact ⟨e, he, hc⟩

/-- Claim C10: every candidate parsed from the LLM response carries an
importance clamped to [1, 10] (defaulting to 5), and every entry the
auto-extractor commits is stored with that 1–10 score unrescaled — hence
always below the default `minImportanceForInjection` of 50 used by
retrieval. -/
theorem autoExtract_importance_bounds (parsedResponse : List RawExtractedMemory) :
    (∀ m ∈ parseExtractionResponse parsedResponse,
      1 ≤ m.importance ∧ m.importance ≤ 10)
  ∧ (∀ (st : MemoryStore) (available : Bool)
      (search : String → Except Unit (List VectorSearchResult))
      (context : ExtractionContext) (deduplicateThreshold : Option ℚ)
      (now freshBookId : String) (gen : Nat → String),
      ∀ e ∈ (autoExtractMemories st available search parsedResponse context
          deduplicateThreshold now freshBookId gen).1.saved,
        ∃ i : Int, e.importance = some i ∧ 1 ≤ i ∧ i ≤ 10 ∧
          i < DEFAULT_BOOK_SETTINGS.minImportanceForInjection) := by
  have hbounds : ∀ m ∈ parseExtractionResponse parsedResponse,
      1 ≤ m.importance ∧ m.importance ≤ 10 := by
    intro m hm
    unfold parseExtractionResponse at hm
    obtain ⟨raw, _, heq⟩ := List.mem_map.1 hm
    rw [← heq]
    cases raw.importance with
    | none => simp
    | some n =>
      simp only []
      constructor
      · exact le_min (by norm_num) (le_max_left 1 n)
      · exact min_le_left 10 (max 1 n)
  refine ⟨hbounds, ?_⟩
  intro st available search context deduplicateThreshold now freshBookId gen e he
  cases hemp : (parseExtractionResponse parsedResponse).isEmpty
  case true =>
    rw [autoExtractMemories] at he
    simp only [hemp, if_true] at he
    simp at he
  case false =>
    rw [autoExtractMemories] at he
    simp only [hemp, Bool.false_eq_true, if_false] at he
    rcases foldl_saved_from_candidates available search
      (deduplicateThreshold.getD (85 / 100)) _ now gen
      (parseExtractionResponse parsedResponse) _ e he with habs | ⟨m, hmem, _, _, hi⟩
    · simp at habs
    · obtain ⟨h1, h10⟩ := hbounds m hmem
      exact ⟨m.importance, hi, h1, h10, lt_of_le_of_lt h10 (by decide)⟩

/-- Witness for C9: with no vector backend, a concrete parsed candidate is
committed (dedup skipped). -/
theorem autoExtractMemories_dedup_witness :
    ((⟨"fact", [], 7, "other"⟩ : ExtractedMemory) ∈
      (autoExtractMemories [] false (fun _ => Except.error ())
        [⟨some "fact", none, some 7, none⟩] ⟨some "N", none⟩ none "t" "bk"
        (fun _ => "m0")).1.extracted)
  ∧ ∃ e ∈ (autoExtractMemories [] false (fun _ => Except.error ())
        [⟨some "fact", none, some 7, none⟩] ⟨some "N", none⟩ none "t" "bk"
        (fun _ => "m0")).1.saved,
      e.content = (⟨"fact", [], 7, "other"⟩ : ExtractedMemory).content :=
  ⟨by decide,
   ((autoExtractMemories_dedup [] false (fun _ => Except.error ())
      [⟨some "fact", none, some 7, none⟩] ⟨some "N", none⟩ none "t" "bk"
      (fun _ => "m0")).2 ⟨"fact", [], 7, "other"⟩ (by decide)).2 (Or.inl rfl)⟩

/-- Witness for C10: an LLM importance of 15 is parsed as the clamped
value 10, inside [1, 10]. -/
theorem autoExtract_importance_bounds_witness :
    ((⟨"x", [], 10, "other"⟩ : ExtractedMemory) ∈
      parseExtractionResponse [⟨some "x", none, some 15, none⟩])
  ∧ (1 ≤ (⟨"x", [], 10, "other"⟩ : ExtractedMemory).importance ∧
      (⟨"x", [], 10, "other"⟩ : ExtractedMemory).importance ≤ 10) :=
  ⟨by decide,
   (autoExtract_importance_bounds [⟨some "x", none, some 15, none⟩]).1
     ⟨"x", [], 10, "other"⟩ (by decide)⟩


theorem find?_pred_congr {α : Type} (p q : α → Bool) (l : List α)
    (h : ∀ a, p a = q a) : l.find? p = l.find? q := by
  induction l with
  | nil => rfl
  | cons a t ih => rw [List.find?_cons, List.find?_cons, h a, ih]

theorem mapGet_mapSet (m : List (String × ScoredMemoryEntry)) (k : String)
    (v : ScoredMemoryEntry) (k' : String) :
    mapGet (mapSet m k v) k' = if k' = k then some v else mapGet m k' := by
  unfold mapSet
  split
  · rename_i hany
    unfold mapGet
    rw [List.find?_map]
    have hcong : ∀ p : String × ScoredMemoryEntry,
        ((fun p : String × ScoredMemoryEntry => p.1 == k') ∘
          (fun p : String × ScoredMemoryEntry =>
            if p.1 == k then (k, v) else p)) p = (p.1 == k') := by
      intro p
      by_cases hp : (p.1 == k) = true
      · have hpk : p.1 = k := by simpa using hp
        simp [Function.comp, hp, hpk]
      · have hp' : (p.1 == k) = false := by simpa using hp
        simp [Function.comp, hp']
    rw [find?_pred_congr _ _ m hcong]
    by_cases hk : k' = k
    · subst hk
      have hex : ∃ p, m.find? (fun p => p.1 == k') = some p := by
        obtain ⟨p, hmem, hpk⟩ := List.any_eq_true.1 hany
        cases hf : m.find? (fun p => p.1 == k') with
        | some q => exact ⟨q, rfl⟩
        | none => exact absurd hpk (by simpa using List.find?_eq_none.1 hf p hmem)
      obtain ⟨p, hp⟩ := hex
      have hpk := List.find?_some hp
      rw [hp, if_pos rfl]
      simp only [Option.map_map, Option.map_some]
      have hpk' : p.1 = k' := by simpa using hpk
      simp [Function.comp, hpk']
    · rw [if_neg hk]
      cases hf : m.find? (fun p => p.1 == k') with
      | none => rfl
      | some p =>
        have hpk := List.find?_some hf
        have hpne : ¬p.1 = k := by
          have hpe : p.1 = k' := by simpa using hpk
          simp [hpe, hk]
        simp [hpne]
  · rename_i hany
    unfold mapGet
    rw [List.find?_append]
    cases hf : m.find? (fun p => p.1 == k') with
    | some p =>
      have hpk := List.find?_some hf
      have hk : k' ≠ k := by
        intro hcon
        subst hcon
        exact hany (List.any_eq_true.2
          ⟨p, List.mem_of_find?_eq_some hf, by simpa using hpk⟩)
      simp [hk]
    | none =>
      by_cases hk : k' = k
      · subst hk
        simp [List.find?_cons]
      · have hne : ((k : String) == k') = false :=
          beq_eq_false_iff_ne.2 (fun h => hk h.symm)
        simp [List.find?_cons, hne, hk]

theorem mapSet_keys_nodup (m : List (String × ScoredMemoryEntry)) (k : String)
    (v : ScoredMemoryEntry) (h : (m.map (fun p => p.1)).Nodup) :
    ((mapSet m k v).map (fun p => p.1)).Nodup := by
  unfold mapSet
  split
  · rename_i hany
    have hkeys : ((m.map (fun p => if p.1 == k then (k, v) else p)).map
        (fun p => p.1)) = m.map (fun p => p.1) := by
      rw [List.map_map]
      apply List.map_congr_left
      intro p _
      by_cases hp : (p.1 == k) = true
      · have hpk : p.1 = k := by simpa using hp
        simp [Function.comp, hp, hpk]
      · have hp' : (p.1 == k) = false := by simpa using hp
        simp [Function.comp, hp']
    rw [hkeys]
    exact h
  · rename_i hany
    rw [List.map_append]
    simp only [List.map_cons, List.map_nil]
    rw [List.nodup_append]
    refine ⟨h, List.nodup_singleton _, ?_⟩
    intro x hx hx2
    obtain rfl : x = k := by simpa using hx2
    obtain ⟨p, hp, hpk⟩ := List.mem_map.1 hx
    exact hany (List.any_eq_true.2 ⟨p, hp, by simp [hpk]⟩)

theorem mapGet_some_key (m : List (String × ScoredMemoryEntry)) (k : String)
    (v : ScoredMemoryEntry) (h : mapGet m k = some v) :
    ∃ p ∈ m, p.1 = k ∧ p.2 = v := by
  unfold mapGet at h
  cases hf : m.find? (fun p => p.1 == k) with
  | none => rw [hf] at h; cases h
  | some q =>
    rw [hf] at h
    have hq2 : q.2 = v := by simpa using h
    have hqk : q.1 = k := by simpa using List.find?_some hf
    exact ⟨q, List.mem_of_find?_eq_some hf, hqk, hq2⟩

theorem mapGet_of_mem_nodup (m : List (String × ScoredMemoryEntry))
    (hnd : (m.map (fun p => p.1)).Nodup) (k : String) (v : ScoredMemoryEntry)
    (hmem : (k, v) ∈ m) : mapGet m k = some v := by
  induction m with
  | nil => cases hmem
  | cons q rest ih =>
    rw [List.map_cons, List.nodup_cons] at hnd
    rcases List.mem_cons.1 hmem with heq | htail
    · subst heq
      unfold mapGet
      simp [List.find?_cons]
    · have hk : k ∈ rest.map (fun p => p.1) :=
        List.mem_map.2 ⟨(k, v), htail, rfl⟩
      have hqk : (q.1 == k) = false :=
        beq_eq_false_iff_ne.2 (fun h => hnd.1 (h ▸ hk))
      unfold mapGet at ih ⊢
      rw [List.find?_cons, hqk]
      exact ih hnd.2 htail

theorem mapSet_invariant (m : List (String × ScoredMemoryEntry)) (k : String)
    (v : ScoredMemoryEntry) (hm : ∀ p ∈ m, p.2.entry.id = p.1)
    (hv : v.entry.id = k) : ∀ p ∈ mapSet m k v, p.2.entry.id = p.1 := by
  unfold mapSet
  split
  · intro p hp
    obtain ⟨q, hq, hqe⟩ := List.mem_map.1 hp
    by_cases hqk : (q.1 == k) = true
    · rw [if_pos hqk] at hqe
      rw [← hqe]
      exact hv
    · rw [if_neg hqk] at hqe
      rw [← hqe]
      exact hm q hq
  · intro p hp
    rcases List.mem_append.1 hp with hp | hp
    · exact hm p hp
    · obtain rfl : p = (k, v) := by simpa using hp
      exact hv

theorem mapGet_foldl_vector (vw : ℝ) (l : List ScoredMemoryEntry)
    (m : List (String × ScoredMemoryEntry)) (k : String)
    (hnd : (l.map (fun r => r.entry.id)).Nodup) :
    mapGet (l.foldl (mergeVector vw) m) k =
      match l.find? (fun r => r.entry.id == k) with
      | some r => some ⟨r.entry, r.score * vw, MatchType.vector⟩
      | none => mapGet m k := by
  induction l generalizing m with
  | nil => rfl
  | cons r rest ih =>
    rw [List.map_cons, List.nodup_cons] at hnd
    rw [List.foldl_cons, ih _ hnd.2, List.find?_cons]
    simp only [mergeVector]
    by_cases hbeq : (r.entry.id == k) = true
    · have hk : r.entry.id = k := by simpa using hbeq
      have hrest : rest.find? (fun r => r.entry.id == k) = none := by
        apply List.find?_eq_none.2
        intro x hx
        have : x.entry.id ∈ rest.map (fun r => r.entry.id) :=
          List.mem_map.2 ⟨x, hx, rfl⟩
        intro hcon
        exact hnd.1 (by rw [hk, ← show x.entry.id = k by simpa using hcon]; exact this)
      rw [hbeq, hrest]
      rw [mapGet_mapSet, if_pos hk.symm]
    · have hbeq' : (r.entry.id == k) = false := by simpa using hbeq
      rw [hbeq']
      cases hrest : rest.find? (fun r => r.entry.id == k) with
      | some q => rfl
      | none =>
        rw [mapGet_mapSet, if_neg (fun h => hbeq (by simp [h]))]

theorem mapGet_foldl_keyword (kw : ℝ) (l : List ScoredMemoryEntry)
    (m : List (String × ScoredMemoryEntry)) (k : String)
    (hnd : (l.map (fun r => r.entry.id)).Nodup) :
    mapGet (l.foldl (mergeKeyword kw) m) k =
      match l.find? (fun r => r.entry.id == k), mapGet m k with
      | some r, some existing =>
        some ⟨existing.entry, existing.score + r.score * kw, MatchType.hybrid⟩
      | some r, none => some ⟨r.entry, r.score * kw, MatchType.keyword⟩
      | none, mk => mk := by
  induction l generalizing m with
  | nil =>
    rw [List.foldl_nil, List.find?_nil]
  | cons r rest ih =>
    rw [List.map_cons, List.nodup_cons] at hnd
    rw [List.foldl_cons, List.find?_cons]
    simp only [mergeKeyword]
    by_cases hbeq : (r.entry.id == k) = true
    · have hk : r.entry.id = k := by simpa using hbeq
      have hrest : rest.find? (fun r => r.entry.id == k) = none := by
        apply List.find?_eq_none.2
        intro x hx
        have hmm : x.entry.id ∈ rest.map (fun r => r.entry.id) :=
          List.mem_map.2 ⟨x, hx, rfl⟩
        intro hcon
        exact hnd.1 (by rw [hk, ← show x.entry.id = k by simpa using hcon]; exact hmm)
      rw [hbeq]
      cases hg : mapGet m r.entry.id with
      | some existing =>
        simp only [hg]
        rw [ih _ hnd.2, hrest, mapGet_mapSet, if_pos hk.symm]
        rw [← hk, hg]
      | none =>
        simp only [hg]
        rw [ih _ hnd.2, hrest, mapGet_mapSet, if_pos hk.symm]
        rw [← hk, hg]
    · have hbeq' : (r.entry.id == k) = false := by simpa using hbeq
      have hne : ¬k = r.entry.id := fun h => hbeq (by simp [h])
      rw [hbeq']
      cases hg : mapGet m r.entry.id with
      | some existing =>
        simp only [hg]
        rw [ih _ hnd.2, mapGet_mapSet, if_neg hne]
      | none =>
        simp only [hg]
        rw [ih _ hnd.2, mapGet_mapSet, if_neg hne]

theorem foldl_vector_invariant (vw : ℝ) (l : List ScoredMemoryEntry)
    (m : List (String × ScoredMemoryEntry)) (hm : ∀ p ∈ m, p.2.entry.id = p.1) :
    ∀ p ∈ l.foldl (mergeVector vw) m, p.2.entry.id = p.1 := by
  induction l generalizing m with
  | nil => exact hm
  | cons r rest ih =>
    rw [List.foldl_cons]
    exact ih _ (mapSet_invariant _ _ _ hm rfl)

theorem foldl_vector_keys_nodup (vw : ℝ) (l : List ScoredMemoryEntry)
    (m : List (String × ScoredMemoryEntry)) (hm : (m.map (fun p => p.1)).Nodup) :
    ((l.foldl (mergeVector vw) m).map (fun p => p.1)).Nodup := by
  induction l generalizing m with
  | nil => exact hm
  | cons r rest ih =>
    rw [List.foldl_cons]
    exact ih _ (mapSet_keys_nodup _ _ _ hm)

theorem foldl_keyword_invariant (kw : ℝ) (l : List ScoredMemoryEntry)
    (m : List (String × ScoredMemoryEntry)) (hm : ∀ p ∈ m, p.2.entry.id = p.1) :
    ∀ p ∈ l.foldl (mergeKeyword kw) m, p.2.entry.id = p.1 := by
  induction l generalizing m with
  | nil => exact hm
  | cons r rest ih =>
    rw [List.foldl_cons]
    simp only [mergeKeyword]
    cases hg : mapGet m r.entry.id with
    | some existing =>
      simp only [hg]
      apply ih
      apply mapSet_invariant _ _ _ hm
      obtain ⟨q, hq, hqk, hqv⟩ := mapGet_some_key _ _ _ hg
      show existing.entry.id = r.entry.id
      rw [← hqv, hm q hq]
      exact hqk
    | none =>
      simp only [hg]
      exact ih _ (mapSet_invariant _ _ _ hm rfl)

theorem foldl_keyword_keys_nodup (kw : ℝ) (l : List ScoredMemoryEntry)
    (m : List (String × ScoredMemoryEntry)) (hm : (m.map (fun p => p.1)).Nodup) :
    ((l.foldl (mergeKeyword kw) m).map (fun p => p.1)).Nodup := by
  induction l generalizing m with
  | nil => exact hm
  | cons r rest ih =>
    rw [List.foldl_cons]
    simp only [mergeKeyword]
    cases hg : mapGet m r.entry.id with
    | some existing =>
      simp only [hg]
      exact ih _ (mapSet_keys_nodup _ _ _ hm)
    | none =>
      simp only [hg]
      exact ih _ (mapSet_keys_nodup _ _ _ hm)

theorem filterMap_map_sublist {α β γ : Type} (f : α → Option β) (g : β → γ)
    (h : α → γ) (hfg : ∀ a b, f a = some b → g b = h a) (l : List α) :
    ((l.filterMap f).map g).Sublist (l.map h) := by
  induction l with
  | nil => simp
  | cons a t ih =>
    cases hfa : f a with
    | none =>
      rw [List.filterMap_cons_none hfa, List.map_cons]
      exact ih.cons _
    | some b =>
      rw [List.filterMap_cons_some hfa, List.map_cons, List.map_cons, hfg a b hfa]
      exact ih.cons₂ _

theorem searchVector_ids_nodup (db : IndexDB) (queryEmbedding : List ℝ)
    (limit : Nat) (minScore : ℝ)
    (hnd : (db.entries.map (fun e => e.id)).Nodup) :
    ((searchVector db queryEmbedding limit minScore).map
      (fun r => r.entry.id)).Nodup := by
  unfold searchVector
  apply nodup_map_take_mergeSort
  have h2 := filterMap_map_sublist
    (fun p : EntryRow × List ℝ =>
      if minScore ≤ cosineSimilarity queryEmbedding p.2 then
        some (⟨rowToEntry p.1, cosineSimilarity queryEmbedding p.2,
          MatchType.vector⟩ : ScoredMemoryEntry)
      else none)
    (fun r => r.entry.id) (fun p => p.1.id)
    (by
      intro p s hs
      dsimp only at hs
      split at hs
      · cases hs
        rfl
      · cases hs)
    (db.entries.filterMap (fun e =>
      if e.enabled then
        (db.vectors.find? (fun v => v.entry_id == e.id)).map
          (fun v => (e, v.embedding))
      else none))
  have h1 := filterMap_map_sublist
    (fun e : EntryRow =>
      if e.enabled then
        (db.vectors.find? (fun v => v.entry_id == e.id)).map
          (fun v => (e, v.embedding))
      else none)
    (fun p : EntryRow × List ℝ => p.1.id) (fun e => e.id)
    (by
      intro e p hp
      dsimp only at hp
      split at hp
      · obtain ⟨v, hv, hvp⟩ := Option.map_eq_some'.1 hp
        rw [← hvp]
      · cases hp)
    db.entries
  exact hnd.sublist (h2.trans h1)

theorem searchKeyword_ids_nodup (db : IndexDB) (query : String) (limit : Nat)
    (hnd : (db.entries.map (fun e => e.id)).Nodup) :
    ((searchKeyword db query limit).map (fun r => r.entry.id)).Nodup := by
  simp only [searchKeyword]
  split
  · exact List.nodup_nil
  · rw [List.map_map]
    have heq : ((fun r : ScoredMemoryEntry => r.entry.id) ∘
        (fun row : EntryRow =>
          (⟨rowToEntry row, 0.5, MatchType.keyword⟩ : ScoredMemoryEntry))) =
        (fun row : EntryRow => row.id) := rfl
    rw [heq]
    apply List.Nodup.sublist _ hnd
    apply List.Sublist.map
    exact (List.take_sublist _ _).trans (List.filter_sublist _)

theorem mapGet_nil (k : String) : mapGet [] k = none := rfl

/-- **C1**: `hybridSearch` runs the vector and keyword searches
independently, each for `limit * 2` candidates, and merges by entry id:
writing `vw`/`kw`/`ms` for the configured weights (defaults 0.7 vector,
0.3 keyword, `minScore` 0), every returned element `r` either was found
by both searches (then `r` carries the shared entry, score
`vectorScore * vw + keywordScore * kw` and matchType `hybrid`), or by
exactly one of them (then `r` carries exactly that weighted term and that
method's matchType); no element scores below `ms`, the output is sorted
descending by score and has at most `limit` elements.  Stated under the
data model's unique-entry-id invariant for the `entries` table. -/
theorem hybridSearch_fusion (db : IndexDB) (queryEmbedding : List ℝ)
    (queryText : String) (limit : Nat) (options : Option HybridSearchOptions)
    (hnd : (db.entries.map (fun e => e.id)).Nodup) :
    (hybridSearch db queryEmbedding queryText limit options).length ≤ limit
    ∧ (hybridSearch db queryEmbedding queryText limit options).Pairwise
        (fun a b => b.score ≤ a.score)
    ∧ ∀ r ∈ hybridSearch db queryEmbedding queryText limit options,
        (options.bind (fun o => o.minScore)).getD 0 ≤ r.score
        ∧ match
            (searchVector db queryEmbedding (limit * 2) 0).find?
              (fun v => v.entry.id == r.entry.id),
            (searchKeyword db queryText (limit * 2)).find?
              (fun x => x.entry.id == r.entry.id) with
          | some v, some x =>
            r.entry = v.entry
            ∧ r.score = v.score * (options.bind (fun o => o.vectorWeight)).getD 0.7
                + x.score * (options.bind (fun o => o.keywordWeight)).getD 0.3
            ∧ r.matchType = MatchType.hybrid
          | some v, none =>
            r.entry = v.entry
            ∧ r.score = v.score * (options.bind (fun o => o.vectorWeight)).getD 0.7
            ∧ r.matchType = MatchType.vector
          | none, some x =>
            r.entry = x.entry
            ∧ r.score = x.score * (options.bind (fun o => o.keywordWeight)).getD 0.3
            ∧ r.matchType = MatchType.keyword
          | none, none => False := by
  have hvnd := searchVector_ids_nodup db queryEmbedding (limit * 2) 0 hnd
  have hknd := searchKeyword_ids_nodup db queryText (limit * 2) hnd
  refine ⟨?_, ?_, ?_⟩
  · simp only [hybridSearch]
    rw [List.length_take]
    exact min_le_left _ _
  · simp only [hybridSearch]
    have htrans : ∀ a b c : ScoredMemoryEntry,
        (decide (b.score ≤ a.score)) = true → (decide (c.score ≤ b.score)) = true →
        (decide (c.score ≤ a.score)) = true := by
      intro a b c hab hbc
      exact decide_eq_true (le_trans (of_decide_eq_true hbc) (of_decide_eq_true hab))
    have htotal : ∀ a b : ScoredMemoryEntry,
        ((decide (b.score ≤ a.score)) || (decide (a.score ≤ b.score))) = true := by
      intro a b
      rcases le_total b.score a.score with h | h <;> simp [h]
    have hp := List.sorted_mergeSort htrans htotal
      ((((searchKeyword db queryText (limit * 2)).foldl
        (mergeKeyword ((options.bind (fun o => o.keywordWeight)).getD 0.3))
        ((searchVector db queryEmbedding (limit * 2) 0).foldl
          (mergeVector ((options.bind (fun o => o.vectorWeight)).getD 0.7)) [])).map
        (fun p => p.2)).filter
        (fun r => decide ((options.bind (fun o => o.minScore)).getD 0 ≤ r.score)))
    exact List.Pairwise.sublist (List.take_sublist _ _)
      (hp.imp (fun h => of_decide_eq_true h))
  · intro r hr
    simp only [hybridSearch] at hr
    have hmem := mem_of_mem_take_mergeSort _ _ _ _ hr
    have hf := List.mem_filter.1 hmem
    refine ⟨of_decide_eq_true hf.2, ?_⟩
    obtain ⟨p, hp, hpv⟩ := List.mem_map.1 hf.1
    have hinv := foldl_keyword_invariant
      ((options.bind (fun o => o.keywordWeight)).getD 0.3)
      (searchKeyword db queryText (limit * 2))
      ((searchVector db queryEmbedding (limit * 2) 0).foldl
        (mergeVector ((options.bind (fun o => o.vectorWeight)).getD 0.7)) [])
      (foldl_vector_invariant _ _ [] (by intro q hq; cases hq))
    have hkeys := foldl_keyword_keys_nodup
      ((options.bind (fun o => o.keywordWeight)).getD 0.3)
      (searchKeyword db queryText (limit * 2))
      ((searchVector db queryEmbedding (limit * 2) 0).foldl
        (mergeVector ((options.bind (fun o => o.vectorWeight)).getD 0.7)) [])
      (foldl_vector_keys_nodup _ _ [] List.nodup_nil)
    have hpmem : (r.entry.id, r) ∈
        (searchKeyword db queryText (limit * 2)).foldl
          (mergeKeyword ((options.bind (fun o => o.keywordWeight)).getD 0.3))
          ((searchVector db queryEmbedding (limit * 2) 0).foldl
            (mergeVector ((options.bind (fun o => o.vectorWeight)).getD 0.7)) []) := by
      have h1 := hinv p hp
      cases p with
      | mk a b =>
        have hb : b = r := hpv
        subst hb
        have ha : b.entry.id = a := h1
        rw [ha]
        exact hp
    have hget := mapGet_of_mem_nodup _ hkeys _ _ hpmem
    rw [mapGet_foldl_keyword _ _ _ _ hknd] at hget
    rw [mapGet_foldl_vector _ _ _ _ hvnd] at hget
    cases hvf : (searchVector db queryEmbedding (limit * 2) 0).find?
        (fun v => v.entry.id == r.entry.id) with
    | some v =>
      cases hxf : (searchKeyword db queryText (limit * 2)).find?
          (fun x => x.entry.id == r.entry.id) with
      | some x =>
        simp only [hvf, hxf, mapGet_nil] at hget ⊢
        have hX := Option.some.inj hget
        refine ⟨?_, ?_, ?_⟩ <;> rw [← hX]
      | none =>
        simp only [hvf, hxf, mapGet_nil] at hget ⊢
        have hX := Option.some.inj hget
        refine ⟨?_, ?_, ?_⟩ <;> rw [← hX]
    | none =>
      cases hxf : (searchKeyword db queryText (limit * 2)).find?
          (fun x => x.entry.id == r.entry.id) with
      | some x =>
        simp only [hvf, hxf, mapGet_nil] at hget ⊢
        have hX := Option.some.inj hget
        refine ⟨?_, ?_, ?_⟩ <;> rw [← hX]
      | none =>
        simp only [hvf, hxf, mapGet_nil] at hget
        exact Option.noConfusion hget

/-- A two-row `entries` table with distinct ids, no vectors, used to
instantiate the hybrid-search theorem. -/
def hybridProbeDB : IndexDB :=
  { entries :=
      [ ⟨"m1", "alpha fact", "t0", "t0", 0, EntryType.manual, none, 70, none, none, true⟩
      , ⟨"m2", "beta fact", "t0", "t0", 0, EntryType.auto, none, 30, none, none, true⟩ ]
  , vectors := []
  , meta := [] }

theorem hybridSearch_fusion_witness :
    ((hybridProbeDB.entries.map (fun e => e.id)).Nodup)
    ∧ (hybridSearch hybridProbeDB [] "alpha" 3 none).length ≤ 3
    ∧ (hybridSearch hybridProbeDB [] "alpha" 3 none).Pairwise
        (fun a b => b.score ≤ a.score) :=
  ⟨by decide,
   (hybridSearch_fusion hybridProbeDB [] "alpha" 3 none (by decide)).1,
   (hybridSearch_fusion hybridProbeDB [] "alpha" 3 none (by decide)).2.1⟩
